import Mathlib

/-!
Shallow embedding of the WTF-8 string core of duktape
(src-input/duk_unicode_wtf8.c and src-input/duk_hstring_misc.c).

Byte strings are modelled as `List Nat` with every element a byte
(`< 256`); machine arithmetic in the C source stays well inside
32-bit range here (codepoints are at most 0x10FFFF), so plain `Nat`
arithmetic with the C's own bit operations is an exact model.
-/

namespace Duktape

/-! ## Bit-operation bridges

The C source manipulates codepoints with `&`, `<<`, `>>`.  These lemmas
rewrite the `Nat` bit operations (at the mask/shift constants the source
uses) into `%`, `*`, `/` so that `omega` and `decide` can reason about
them. -/

theorem nat_and_1 (n : Nat) : n &&& 0x1 = n % 0x2 := Nat.and_pow_two_sub_one_eq_mod n 1
theorem nat_and_7 (n : Nat) : n &&& 0x7 = n % 0x8 := Nat.and_pow_two_sub_one_eq_mod n 3
theorem nat_and_15 (n : Nat) : n &&& 0xf = n % 0x10 := Nat.and_pow_two_sub_one_eq_mod n 4
theorem nat_and_31 (n : Nat) : n &&& 0x1f = n % 0x20 := Nat.and_pow_two_sub_one_eq_mod n 5
theorem nat_and_63 (n : Nat) : n &&& 0x3f = n % 0x40 := Nat.and_pow_two_sub_one_eq_mod n 6
theorem nat_and_1023 (n : Nat) : n &&& 0x3ff = n % 0x400 := Nat.and_pow_two_sub_one_eq_mod n 10

theorem nat_shl_6 (n : Nat) : n <<< 6 = n * 0x40 := Nat.shiftLeft_eq n 6
theorem nat_shl_10 (n : Nat) : n <<< 10 = n * 0x400 := Nat.shiftLeft_eq n 10
theorem nat_shl_12 (n : Nat) : n <<< 12 = n * 0x1000 := Nat.shiftLeft_eq n 12

theorem nat_shr_6 (n : Nat) : n >>> 6 = n / 0x40 := Nat.shiftRight_eq_div_pow n 6
theorem nat_shr_10 (n : Nat) : n >>> 10 = n / 0x400 := Nat.shiftRight_eq_div_pow n 10
theorem nat_shr_12 (n : Nat) : n >>> 12 = n / 0x1000 := Nat.shiftRight_eq_div_pow n 12
theorem nat_shr_18 (n : Nat) : n >>> 18 = n / 0x40000 := Nat.shiftRight_eq_div_pow n 18

/-! ## WTF-8 validator, from `duk_unicode_is_valid_wtf8` (duk_unicode_wtf8.c:8-62) -/

/-- Embeds `duk_unicode_is_valid_wtf8`: sequential scan, each iteration
consumes one full WTF-8 sequence or rejects.  The C checks
`p_end - p >= n` and the continuation-byte ranges before advancing by
`n`; here the remaining input including the lead byte is `1 + p.length`
and continuation bytes are read with `getD`. -/
def duk_unicode_is_valid_wtf8 (l : List Nat) : Bool :=
  match l with
  | [] => true
  | t :: p =>
    if t ≤ 0x7f then
      duk_unicode_is_valid_wtf8 p
    else if t ≤ 0xc1 then
      -- 0x80-0xbf continuation byte as lead, 0xc0/0xc1 overlong leads
      false
    else if t ≤ 0xdf then
      if 2 ≤ 1 + p.length ∧ 0x80 ≤ p.getD 0 0 ∧ p.getD 0 0 ≤ 0xbf then
        duk_unicode_is_valid_wtf8 (p.drop 1)
      else false
    else if t ≤ 0xef then
      -- lower bound 0xa0 for lead 0xe0 (overlong), otherwise 0x80
      if 3 ≤ 1 + p.length ∧ (if t = 0xe0 then 0xa0 else 0x80) ≤ p.getD 0 0 ∧ p.getD 0 0 ≤ 0xbf ∧
          0x80 ≤ p.getD 1 0 ∧ p.getD 1 0 ≤ 0xbf then
        duk_unicode_is_valid_wtf8 (p.drop 2)
      else false
    else if t ≤ 0xf4 then
      -- lower bound 0x90 for lead 0xf0 (overlong), upper bound 0x8f for 0xf4 (> U+10FFFF)
      if 4 ≤ 1 + p.length ∧ (if t = 0xf0 then 0x90 else 0x80) ≤ p.getD 0 0 ∧
          p.getD 0 0 ≤ (if t = 0xf4 then 0x8f else 0xbf) ∧
          0x80 ≤ p.getD 1 0 ∧ p.getD 1 0 ≤ 0xbf ∧ 0x80 ≤ p.getD 2 0 ∧ p.getD 2 0 ≤ 0xbf then
        duk_unicode_is_valid_wtf8 (p.drop 3)
      else false
    else
      -- 0xf5-0xf7 invalid 4-byte sequences, 0xf8-0xff invalid initial bytes
      false
termination_by l.length
decreasing_by
  all_goals simp only [List.length_cons, List.length_drop]; omega

/-! ## WTF-8 sanitizer, from `duk__unicode_wtf8_sanitize_string_reference`
(duk_unicode_wtf8.c:67-217) -/

/-- Continuation-byte consumption loop of the sanitizer
(duk_unicode_wtf8.c:141-158).  `none` means replacement is required; the
returned list is where scanning resumes (an out-of-range continuation
byte is NOT consumed, a truncated input consumes nothing further). -/
def duk__wtf8_decode_cont (cp lower upper : Nat) : Nat → List Nat → Option Nat × List Nat
  | 0, p => (some cp, p)
  | _ + 1, [] => (none, [])
  | numCont + 1, c :: p =>
    if lower ≤ c ∧ c ≤ upper then
      duk__wtf8_decode_cont ((cp <<< 6) + (c &&& 0x3f)) 0x80 0xbf numCont p
    else
      (none, c :: p)

/-- Lead-byte classification and sequence decode of the sanitizer
(duk_unicode_wtf8.c:112-158).  `t` is the (non-ASCII) lead byte, the list
holds the bytes after it. -/
def duk__wtf8_sanitize_decode (t : Nat) (p : List Nat) : Option Nat × List Nat :=
  if 0xc2 ≤ t then
    if t ≤ 0xdf then
      duk__wtf8_decode_cont (t &&& 0x1f) 0x80 0xbf 1 p
    else if t ≤ 0xef then
      duk__wtf8_decode_cont (t &&& 0x0f) (if t = 0xe0 then 0xa0 else 0x80) 0xbf 2 p
    else if t ≤ 0xf4 then
      duk__wtf8_decode_cont (t &&& 0x07) (if t = 0xf0 then 0x90 else 0x80)
        (if t = 0xf4 then 0x8f else 0xbf) 3 p
    else
      (none, p) -- invalid lead 0xf5-0xff
  else
    (none, p) -- continuation byte as lead, or 0xc0/0xc1

/-- Surrogate-pair lookahead of the sanitizer (duk_unicode_wtf8.c:164-165):
the next three bytes encode a low surrogate. -/
def duk__wtf8_pair_check : List Nat → Bool
  | a :: b :: c :: _ => a = 0xed && (0xb0 ≤ b && b ≤ 0xbf) && (0x80 ≤ c && c ≤ 0xbf)
  | _ => false

/-- Codepoint emission step of the sanitizer (duk_unicode_wtf8.c:186-201).
Returns the emitted bytes and the `out_clen_sub` increment. -/
def duk__wtf8_sanitize_emit (cp : Nat) : List Nat × Nat :=
  if cp ≤ 0x7ff then
    ([0xc0 + (cp >>> 6), 0x80 + (cp &&& 0x3f)], 1)
  else if cp ≤ 0xffff then
    ([0xe0 + (cp >>> 12), 0x80 + ((cp >>> 6) &&& 0x3f), 0x80 + (cp &&& 0x3f)], 2)
  else
    ([0xf0 + (cp >>> 18), 0x80 + ((cp >>> 12) &&& 0x3f), 0x80 + ((cp >>> 6) &&& 0x3f),
      0x80 + (cp &&& 0x3f)], 3)

theorem duk__wtf8_decode_cont_length (cp lower upper n : Nat) (p : List Nat) :
    (duk__wtf8_decode_cont cp lower upper n p).2.length ≤ p.length := by
  induction n generalizing cp lower upper p with
  | zero => simp [duk__wtf8_decode_cont]
  | succ n ih =>
    cases p with
    | nil => simp [duk__wtf8_decode_cont]
    | cons c p =>
      simp only [duk__wtf8_decode_cont]
      split
      · exact Nat.le_trans (ih _ _ _ _) (Nat.le_succ _)
      · simp

theorem duk__wtf8_sanitize_decode_length (t : Nat) (p : List Nat) :
    (duk__wtf8_sanitize_decode t p).2.length ≤ p.length := by
  unfold duk__wtf8_sanitize_decode
  repeat' split
  all_goals first
    | exact duk__wtf8_decode_cont_length _ _ _ _ _
    | simp

/-- Embeds `duk__unicode_wtf8_sanitize_string_reference`
(duk_unicode_wtf8.c:67-217).  Returns the output bytes together with
`out_clen_sub` (the C's final answer is `out_blen = output.length`, and
`out_clen = out_blen - out_clen_sub`). -/
def duk__unicode_wtf8_sanitize_string_reference (l : List Nat) : List Nat × Nat :=
  match l with
  | [] => ([], 0)
  | t :: p =>
    if t < 0x80 then
      -- ASCII byte copied through, no clen_sub adjustment
      let r := duk__unicode_wtf8_sanitize_string_reference p
      (t :: r.1, r.2)
    else
      match hdec : duk__wtf8_sanitize_decode t p with
      | (none, rest) =>
        -- replacement: emit U+FFFD (3 bytes, 1 char)
        let r := duk__unicode_wtf8_sanitize_string_reference rest
        (0xef :: 0xbf :: 0xbd :: r.1, r.2 + 2)
      | (some cp, rest) =>
        if 0xd800 ≤ cp ∧ cp < 0xdc00 ∧ duk__wtf8_pair_check rest = true then
          -- paired high surrogate: combine with the following low surrogate
          let cp2 := 0x10000 + ((cp &&& 0x3ff) <<< 10) +
            (((rest.getD 1 0) &&& 0x0f) <<< 6) + ((rest.getD 2 0) &&& 0x3f)
          let e := duk__wtf8_sanitize_emit cp2
          let r := duk__unicode_wtf8_sanitize_string_reference (rest.drop 3)
          (e.1 ++ r.1, e.2 + r.2)
        else
          -- lone surrogate kept as is; other codepoints re-encoded unchanged
          let e := duk__wtf8_sanitize_emit cp
          let r := duk__unicode_wtf8_sanitize_string_reference rest
          (e.1 ++ r.1, e.2 + r.2)
termination_by l.length
decreasing_by
  all_goals
    simp only [List.length_cons, List.length_drop]
    try (have h := duk__wtf8_sanitize_decode_length t p; rw [hdec] at h; simp only [] at h)
    omega

/-- `duk_unicode_wtf8_sanitize_string` (duk_unicode_wtf8.c:234-236) just
calls the reference implementation. -/
def duk_unicode_wtf8_sanitize_string (l : List Nat) : List Nat × Nat :=
  duk__unicode_wtf8_sanitize_string_reference l

/-! ## Symbol sanitization and classification
(duk_unicode_wtf8.c:220-232 and 238-260) -/

/-- Embeds `duk__unicode_wtf8_sanitize_symbol_reference`
(duk_unicode_wtf8.c:220-228): a plain byte copy. -/
def duk__unicode_wtf8_sanitize_symbol_reference (l : List Nat) : List Nat := l

/-- `duk_unicode_wtf8_sanitize_symbol` (duk_unicode_wtf8.c:230-232). -/
def duk_unicode_wtf8_sanitize_symbol (l : List Nat) : List Nat :=
  duk__unicode_wtf8_sanitize_symbol_reference l

/-- Symbol classification inside `duk_unicode_wtf8_sanitize_detect`
(duk_unicode_wtf8.c:244-253). -/
def duk__wtf8_symbol_check : List Nat → Bool
  | [] => false
  | ib :: _ =>
    if ib ≤ 0x7f then false
    else ib = 0x80 || ib = 0x81 || ib = 0x82 || ib = 0xff

/-- Embeds `duk_unicode_wtf8_sanitize_detect` (duk_unicode_wtf8.c:238-260). -/
def duk_unicode_wtf8_sanitize_detect (l : List Nat) : List Nat :=
  if duk__wtf8_symbol_check l then duk_unicode_wtf8_sanitize_symbol l
  else (duk_unicode_wtf8_sanitize_string l).1

/-! ## Character length, from `duk_unicode_wtf8_charlength`
(duk_unicode_wtf8.c:373-417) -/

/-- The `adj` accumulation loop of `duk_unicode_wtf8_charlength`
(duk_unicode_wtf8.c:384-411): 2-byte sequences contribute `2-1`, 3-byte
`3-1`, 4-byte `4-2` (non-BMP counts as two ES characters). -/
def duk__wtf8_charlength_adj (l : List Nat) : Nat :=
  match l with
  | [] => 0
  | x :: p =>
    if x ≤ 0x7f then duk__wtf8_charlength_adj p
    else if x ≤ 0xdf then (2 - 1) + duk__wtf8_charlength_adj (p.drop 1)
    else if x ≤ 0xef then (3 - 1) + duk__wtf8_charlength_adj (p.drop 2)
    else (4 - 2) + duk__wtf8_charlength_adj (p.drop 3)
termination_by l.length
decreasing_by
  all_goals simp only [List.length_cons, List.length_drop]; omega

/-- Embeds `duk_unicode_wtf8_charlength`: `clen = blen - adj`. -/
def duk_unicode_wtf8_charlength (l : List Nat) : Nat :=
  l.length - duk__wtf8_charlength_adj l

/-! ## Codepoint decoding, from `duk_unicode_wtf8_decode_known`
(duk_unicode_wtf8.c:735-772) -/

/-- Embeds `duk_unicode_wtf8_decode_known`, reading from the head of a
byte-list suffix (out-of-range reads model as 0; the source assumes a
valid sequence is present). -/
def duk_unicode_wtf8_decode_known (p : List Nat) : Nat :=
  let t := p.getD 0 0
  if t ≤ 0x7f then t
  else if t ≤ 0xdf then
    ((t &&& 0x1f) <<< 6) + (p.getD 1 0 &&& 0x3f)
  else if t ≤ 0xef then
    ((t &&& 0x0f) <<< 12) + ((p.getD 1 0 &&& 0x3f) <<< 6) + (p.getD 2 0 &&& 0x3f)
  else
    ((t &&& 0x07) <<< 18) + ((p.getD 1 0 &&& 0x3f) <<< 12) + ((p.getD 2 0 &&& 0x3f) <<< 6) +
      (p.getD 3 0 &&& 0x3f)

/-! ## Char-to-byte scan (external collaborator)

`duk_strcache_scan_char2byte_wtf8` lives in the string cache module,
which is not part of this repository snapshot; only its contract is
specified (spec section 6). -/

/-- Modelled from the spec: the char-to-byte cache scan
`duk_strcache_scan_char2byte_wtf8` maps a character position to
`(byte_off, char_off_at_byte)` with `char_off_at_byte ≤ char_pos` and
`char_pos - char_off_at_byte ∈ {0, 1}`, the latter exactly when the
mapped byte starts a supplementary codepoint and `char_pos` lands on its
low half.  Helper: walk the WTF-8 sequences accumulating byte and
character offsets. -/
def duk__scan_char2byte_go (l : List Nat) (charPos byteoff charoff : Nat) : Nat × Nat :=
  match l with
  | [] => (byteoff, charoff)
  | t :: rest =>
    let nbytes := if t ≤ 0x7f then 1 else if t ≤ 0xdf then 2 else if t ≤ 0xef then 3 else 4
    let nchars := if 0xf0 ≤ t then 2 else 1
    if charPos < charoff + nchars then (byteoff, charoff)
    else duk__scan_char2byte_go (rest.drop (nbytes - 1)) charPos (byteoff + nbytes) (charoff + nchars)
termination_by l.length
decreasing_by
  simp only [List.length_cons, List.length_drop]; omega

/-- Modelled from the spec: `duk_strcache_scan_char2byte_wtf8` (spec
section 6, char-to-byte cache). -/
def duk_strcache_scan_char2byte_wtf8 (data : List Nat) (charPos : Nat) : Nat × Nat :=
  duk__scan_char2byte_go data charPos 0 0

/-! ## Substring, from `duk_push_wtf8_substring_hstring`
(duk_unicode_wtf8.c:429-560)

The handle is represented by its data bytes; interning and the value
stack do not change bytes, so the pushed result is just a byte list. -/

/-- Embeds `duk_push_wtf8_substring_hstring`. -/
def duk_push_wtf8_substring_hstring (data : List Nat) (startOffset endOffset : Nat) :
    List Nat :=
  if duk_unicode_wtf8_charlength data = data.length then
    -- ASCII fast path (charlen == bytelen)
    (data.drop startOffset).take (endOffset - startOffset)
  else if startOffset = endOffset then
    []
  else
    let s := duk_strcache_scan_char2byte_wtf8 data startOffset
    let pre : List Nat :=
      if s.2 ≠ startOffset then
        let startCp := duk_unicode_wtf8_decode_known (data.drop s.1)
        let ps := 0xdc00 + ((startCp - 0x10000) &&& 0x3ff)
        [0xed, 0x80 + ((ps >>> 6) &&& 0x3f), 0x80 + (ps &&& 0x3f)]
      else []
    let copyStart := if s.2 ≠ startOffset then s.1 + 4 else s.1
    let e := duk_strcache_scan_char2byte_wtf8 data endOffset
    let suf : List Nat :=
      if e.2 ≠ endOffset then
        let endCp := duk_unicode_wtf8_decode_known (data.drop e.1)
        let ss := 0xd800 + ((endCp - 0x10000) >>> 10)
        [0xed, 0x80 + ((ss >>> 6) &&& 0x3f), 0x80 + (ss &&& 0x3f)]
      else []
    let copyEnd := e.1
    pre ++ (data.drop copyStart).take (copyEnd - copyStart) ++ suf

/-! ## Forward search, from `duk__unicode_wtf8_search_forwards_reference`
(duk_unicode_wtf8.c:570-610)

Handle identity under interning is byte-list equality. -/

/-- The scan loop of `duk__unicode_wtf8_search_forwards_reference`
(duk_unicode_wtf8.c:585-601). -/
def duk__wtf8_search_fwd_loop (input needle : List Nat) (ilen mlen charoff : Nat) : Int :=
  if charoff ≤ ilen then
    if charoff + mlen ≤ ilen ∧
        duk_push_wtf8_substring_hstring input charoff (charoff + mlen) = needle then
      Int.ofNat charoff
    else
      duk__wtf8_search_fwd_loop input needle ilen mlen (charoff + 1)
  else
    -1
termination_by ilen + 1 - charoff
decreasing_by omega

/-- Embeds `duk__unicode_wtf8_search_forwards_reference`. -/
def duk__unicode_wtf8_search_forwards_reference (input needle : List Nat)
    (startCharoff : Nat) : Int :=
  duk__wtf8_search_fwd_loop input needle (duk_unicode_wtf8_charlength input)
    (duk_unicode_wtf8_charlength needle) startCharoff

/-- `duk_unicode_wtf8_search_forwards` (duk_unicode_wtf8.c:605-610). -/
def duk_unicode_wtf8_search_forwards (input needle : List Nat) (startCharoff : Nat) : Int :=
  duk__unicode_wtf8_search_forwards_reference input needle startCharoff

/-! ## String handle and lazy charlen slow path (duk_hstring_misc.c) -/

/-- String handle model (`duk_hstring`): data bytes, stored `clen` cell
(0 is the lazy "not computed" sentinel), and the ASCII / SYMBOL /
READONLY flag bits.  `blen` is the length of `data`. -/
structure DukHstring where
  data : List Nat
  clen : Nat
  ascii : Bool
  symbol : Bool
  readonly : Bool
deriving DecidableEq, Repr

/-- Embeds `duk__hstring_get_charlen_slowpath` in the
`DUK_USE_HSTRING_CLEN` + `DUK_USE_ROM_STRINGS` configuration
(duk_hstring_misc.c:117-145).  Caller guarantees `h.clen = 0`.  Returns
the result together with the (possibly updated) handle. -/
def duk__hstring_get_charlen_slowpath (h : DukHstring) : Nat × DukHstring :=
  if h.readonly then
    -- ROM strings are never written; precomputed clen of zero stays zero
    (0, h)
  else if h.symbol then
    (0, h)
  else
    let res := duk_unicode_wtf8_charlength h.data
    let h1 : DukHstring := { h with clen := res }
    if res = h.data.length then
      (res, { h1 with ascii := true })
    else
      (res, h1)

/-- Embeds `duk__hstring_get_charlen_slowpath` in the configuration
without `DUK_USE_HSTRING_CLEN` (duk_hstring_misc.c:147-177): no stored
`clen`, lazy ASCII flag only; READ_ONLY handles skip the write-back. -/
def duk__hstring_get_charlen_slowpath_noclen (h : DukHstring) : Nat × DukHstring :=
  if h.ascii then
    (h.data.length, h)
  else if h.symbol then
    (0, h)
  else
    let res := duk_unicode_wtf8_charlength h.data
    if h.readonly then
      (res, h)
    else if res = h.data.length then
      (res, { h with ascii := true })
    else
      (res, h)

/-- Embeds `duk_hstring_get_charlen` in the `DUK_USE_HSTRING_CLEN`
configuration (duk_hstring_misc.c:181-192). -/
def duk_hstring_get_charlen (h : DukHstring) : Nat × DukHstring :=
  if h.clen ≠ 0 then (h.clen, h)
  else duk__hstring_get_charlen_slowpath h

/-! ## Specification-side functions

These follow the spec's words (not the source) and exist to be compared
against the embedded source functions. -/

/-- Spec-side WTF-8 encoder: standard encoding of a scalar written with
plain arithmetic (spec, Glossary and section 4.B). -/
def wtf8Enc (cp : Nat) : List Nat :=
  if cp < 0x80 then [cp]
  else if cp < 0x800 then [0xc0 + cp / 0x40, 0x80 + cp % 0x40]
  else if cp < 0x10000 then
    [0xe0 + cp / 0x1000, 0x80 + cp / 0x40 % 0x40, 0x80 + cp % 0x40]
  else
    [0xf0 + cp / 0x40000, 0x80 + cp / 0x1000 % 0x40, 0x80 + cp / 0x40 % 0x40, 0x80 + cp % 0x40]

/-- Byte length of a WTF-8 sequence from its lead byte. -/
def wtf8SeqLen (t : Nat) : Nat :=
  if t ≤ 0x7f then 1 else if t ≤ 0xdf then 2 else if t ≤ 0xef then 3 else 4

/-- Modelled from the spec (claim C1 / spec section 4.B guarantee 2):
on valid WTF-8, output equals input except every adjacent pair of a
3-byte-encoded high surrogate followed by a 3-byte-encoded low surrogate
is replaced by the single 4-byte encoding of
`0x10000 + (hi - 0xD800) * 0x400 + (lo - 0xDC00)`; all other sequences
(lone surrogates included) are copied unchanged. -/
def wtf8CoalescePairsSpec (l : List Nat) : List Nat :=
  match l with
  | [] => []
  | t :: rest =>
    let b := rest.getD 0 0
    let c := rest.getD 1 0
    let d := rest.getD 2 0
    let e := rest.getD 3 0
    let f := rest.getD 4 0
    if 5 ≤ rest.length ∧ t = 0xed ∧ d = 0xed ∧ 0xa0 ≤ b ∧ b ≤ 0xaf ∧ 0x80 ≤ c ∧ c ≤ 0xbf ∧
        0xb0 ≤ e ∧ e ≤ 0xbf ∧ 0x80 ≤ f ∧ f ≤ 0xbf then
      let hi := 0xd000 + (b - 0x80) * 0x40 + (c - 0x80)
      let lo := 0xd000 + (e - 0x80) * 0x40 + (f - 0x80)
      wtf8Enc (0x10000 + (hi - 0xd800) * 0x400 + (lo - 0xdc00)) ++ wtf8CoalescePairsSpec (rest.drop 5)
    else
      t :: rest.take (wtf8SeqLen t - 1) ++ wtf8CoalescePairsSpec (rest.drop (wtf8SeqLen t - 1))
termination_by l.length
decreasing_by
  all_goals simp only [List.length_cons, List.length_drop]; omega

/-- Modelled from the spec (claim C6 / spec section 4.E): character
count by lead byte: `≤ 0x7F` one char advancing 1 byte, `0xC2-0xDF` one
char advancing 2, `0xE0-0xEF` one char advancing 3, `0xF0-0xF4` two
chars advancing 4 (other leads cannot occur in valid WTF-8). -/
def wtf8CharCountSpec (l : List Nat) : Nat :=
  match l with
  | [] => 0
  | t :: rest =>
    if t ≤ 0x7f then 1 + wtf8CharCountSpec rest
    else if 0xc2 ≤ t ∧ t ≤ 0xdf then 1 + wtf8CharCountSpec (rest.drop 1)
    else if 0xe0 ≤ t ∧ t ≤ 0xef then 1 + wtf8CharCountSpec (rest.drop 2)
    else if 0xf0 ≤ t ∧ t ≤ 0xf4 then 2 + wtf8CharCountSpec (rest.drop 3)
    else 0
termination_by l.length
decreasing_by
  all_goals simp only [List.length_cons, List.length_drop]; omega

/-- Decode every scalar of a (valid) WTF-8 byte list in order, using
the source decoder `duk_unicode_wtf8_decode_known` at each sequence. -/
def wtf8DecodeAll (l : List Nat) : List Nat :=
  match l with
  | [] => []
  | t :: rest =>
    duk_unicode_wtf8_decode_known (t :: rest) :: wtf8DecodeAll (rest.drop (wtf8SeqLen t - 1))
termination_by l.length
decreasing_by
  simp only [List.length_cons, List.length_drop]; omega

/-- Sum of per-codepoint "extra bytes" over a (valid) WTF-8 byte list:
2-byte sequences contribute 1, 3-byte 2, 4-byte 3 (claim C4 / spec
section 4.B guarantee 5). -/
def wtf8ClenSubOf (l : List Nat) : Nat :=
  match l with
  | [] => 0
  | t :: rest =>
    (if t ≤ 0x7f then 0 else if t ≤ 0xdf then 1 else if t ≤ 0xef then 2 else 3) +
      wtf8ClenSubOf (rest.drop (wtf8SeqLen t - 1))
termination_by l.length
decreasing_by
  simp only [List.length_cons, List.length_drop]; omega

/-! ## Helper lemmas: sanitizer step equations -/

theorem san_nil : duk__unicode_wtf8_sanitize_string_reference [] = ([], 0) := by
  rw [duk__unicode_wtf8_sanitize_string_reference]

theorem san_ascii (t : Nat) (p : List Nat) (h : t < 0x80) :
    duk__unicode_wtf8_sanitize_string_reference (t :: p) =
      (t :: (duk__unicode_wtf8_sanitize_string_reference p).1,
        (duk__unicode_wtf8_sanitize_string_reference p).2) := by
  rw [duk__unicode_wtf8_sanitize_string_reference]
  simp [h]

theorem san_repl (t : Nat) (p rest : List Nat) (h : ¬ t < 0x80)
    (hd : duk__wtf8_sanitize_decode t p = (none, rest)) :
    duk__unicode_wtf8_sanitize_string_reference (t :: p) =
      (0xef :: 0xbf :: 0xbd :: (duk__unicode_wtf8_sanitize_string_reference rest).1,
        (duk__unicode_wtf8_sanitize_string_reference rest).2 + 2) := by
  rw [duk__unicode_wtf8_sanitize_string_reference]
  rw [if_neg h]
  split
  · rename_i rest' heq
    rw [hd] at heq
    simp only [Prod.mk.injEq] at heq
    rw [heq.2]
  · rename_i cp' rest' heq
    rw [hd] at heq
    simp at heq

theorem san_emit (t cp : Nat) (p rest : List Nat) (h : ¬ t < 0x80)
    (hd : duk__wtf8_sanitize_decode t p = (some cp, rest))
    (hs : ¬(0xd800 ≤ cp ∧ cp < 0xdc00 ∧ duk__wtf8_pair_check rest = true)) :
    duk__unicode_wtf8_sanitize_string_reference (t :: p) =
      ((duk__wtf8_sanitize_emit cp).1 ++ (duk__unicode_wtf8_sanitize_string_reference rest).1,
        (duk__wtf8_sanitize_emit cp).2 + (duk__unicode_wtf8_sanitize_string_reference rest).2) := by
  rw [duk__unicode_wtf8_sanitize_string_reference]
  rw [if_neg h]
  split
  · rename_i rest' heq
    rw [hd] at heq
    simp at heq
  · rename_i cp' rest' heq
    rw [hd] at heq
    simp only [Prod.mk.injEq, Option.some.injEq] at heq
    obtain ⟨h1, h2⟩ := heq
    subst h1
    subst h2
    rw [if_neg hs]

theorem san_pair (t cp : Nat) (p rest : List Nat) (h : ¬ t < 0x80)
    (hd : duk__wtf8_sanitize_decode t p = (some cp, rest))
    (hs : 0xd800 ≤ cp ∧ cp < 0xdc00 ∧ duk__wtf8_pair_check rest = true) :
    duk__unicode_wtf8_sanitize_string_reference (t :: p) =
      ((duk__wtf8_sanitize_emit (0x10000 + ((cp &&& 0x3ff) <<< 10) +
          (((rest.getD 1 0) &&& 0x0f) <<< 6) + ((rest.getD 2 0) &&& 0x3f))).1 ++
          (duk__unicode_wtf8_sanitize_string_reference (rest.drop 3)).1,
        (duk__wtf8_sanitize_emit (0x10000 + ((cp &&& 0x3ff) <<< 10) +
          (((rest.getD 1 0) &&& 0x0f) <<< 6) + ((rest.getD 2 0) &&& 0x3f))).2 +
          (duk__unicode_wtf8_sanitize_string_reference (rest.drop 3)).2) := by
  rw [duk__unicode_wtf8_sanitize_string_reference]
  rw [if_neg h]
  split
  · rename_i rest' heq
    rw [hd] at heq
    simp at heq
  · rename_i cp' rest' heq
    rw [hd] at heq
    simp only [Prod.mk.injEq, Option.some.injEq] at heq
    obtain ⟨h1, h2⟩ := heq
    subst h1
    subst h2
    rw [if_pos hs]

/-! ## Helper lemmas: decode characterization -/

theorem cont_one_nil (cp lo up : Nat) :
    duk__wtf8_decode_cont cp lo up 1 [] = (none, []) := rfl

theorem cont_one_cons (cp lo up c : Nat) (p : List Nat) :
    duk__wtf8_decode_cont cp lo up 1 (c :: p) =
      if lo ≤ c ∧ c ≤ up then (some ((cp <<< 6) + (c &&& 0x3f)), p) else (none, c :: p) := rfl

theorem cont_two_nil (cp lo up : Nat) :
    duk__wtf8_decode_cont cp lo up 2 [] = (none, []) := rfl

theorem cont_two_one (cp lo up c : Nat) :
    duk__wtf8_decode_cont cp lo up 2 [c] =
      if lo ≤ c ∧ c ≤ up then (none, []) else (none, [c]) := rfl

theorem cont_two_cons (cp lo up c1 c2 : Nat) (p : List Nat) :
    duk__wtf8_decode_cont cp lo up 2 (c1 :: c2 :: p) =
      if lo ≤ c1 ∧ c1 ≤ up then
        (if 0x80 ≤ c2 ∧ c2 ≤ 0xbf then
          (some ((((cp <<< 6) + (c1 &&& 0x3f)) <<< 6) + (c2 &&& 0x3f)), p)
        else (none, c2 :: p))
      else (none, c1 :: c2 :: p) := rfl

theorem cont_three_nil (cp lo up : Nat) :
    duk__wtf8_decode_cont cp lo up 3 [] = (none, []) := rfl

theorem cont_three_one (cp lo up c : Nat) :
    duk__wtf8_decode_cont cp lo up 3 [c] =
      if lo ≤ c ∧ c ≤ up then (none, []) else (none, [c]) := rfl

theorem cont_three_two (cp lo up c1 c2 : Nat) :
    duk__wtf8_decode_cont cp lo up 3 [c1, c2] =
      if lo ≤ c1 ∧ c1 ≤ up then
        (if 0x80 ≤ c2 ∧ c2 ≤ 0xbf then (none, []) else (none, [c2]))
      else (none, [c1, c2]) := rfl

theorem cont_three_cons (cp lo up c1 c2 c3 : Nat) (p : List Nat) :
    duk__wtf8_decode_cont cp lo up 3 (c1 :: c2 :: c3 :: p) =
      if lo ≤ c1 ∧ c1 ≤ up then
        (if 0x80 ≤ c2 ∧ c2 ≤ 0xbf then
          (if 0x80 ≤ c3 ∧ c3 ≤ 0xbf then
            (some ((((((cp <<< 6) + (c1 &&& 0x3f)) <<< 6) + (c2 &&& 0x3f)) <<< 6) + (c3 &&& 0x3f)), p)
          else (none, c3 :: p))
        else (none, c2 :: c3 :: p))
      else (none, c1 :: c2 :: c3 :: p) := rfl

theorem cont_step_two (cp lo up c : Nat) (p : List Nat) :
    duk__wtf8_decode_cont cp lo up 2 (c :: p) =
      if lo ≤ c ∧ c ≤ up then
        duk__wtf8_decode_cont ((cp <<< 6) + (c &&& 0x3f)) 0x80 0xbf 1 p
      else (none, c :: p) := rfl

theorem cont_step_three (cp lo up c : Nat) (p : List Nat) :
    duk__wtf8_decode_cont cp lo up 3 (c :: p) =
      if lo ≤ c ∧ c ≤ up then
        duk__wtf8_decode_cont ((cp <<< 6) + (c &&& 0x3f)) 0x80 0xbf 2 p
      else (none, c :: p) := rfl

theorem decode_2b (t c1 : Nat) (p : List Nat) (h1 : 0xc2 ≤ t) (h2 : t ≤ 0xdf)
    (h3 : 0x80 ≤ c1) (h4 : c1 ≤ 0xbf) :
    duk__wtf8_sanitize_decode t (c1 :: p) = (some ((t % 0x20) * 0x40 + c1 % 0x40), p) := by
  unfold duk__wtf8_sanitize_decode
  rw [if_pos h1, if_pos h2, cont_one_cons, if_pos ⟨h3, h4⟩]
  simp [nat_and_31, nat_and_63, nat_shl_6]

theorem decode_3b (t c1 c2 : Nat) (p : List Nat) (h1 : 0xe0 ≤ t) (h2 : t ≤ 0xef)
    (h3 : (if t = 0xe0 then 0xa0 else 0x80) ≤ c1) (h4 : c1 ≤ 0xbf)
    (h5 : 0x80 ≤ c2) (h6 : c2 ≤ 0xbf) :
    duk__wtf8_sanitize_decode t (c1 :: c2 :: p) =
      (some ((t % 0x10) * 0x1000 + (c1 % 0x40) * 0x40 + c2 % 0x40), p) := by
  unfold duk__wtf8_sanitize_decode
  rw [if_pos (by omega : 0xc2 ≤ t), if_neg (by omega : ¬ t ≤ 0xdf), if_pos h2,
    cont_two_cons, if_pos ⟨h3, h4⟩, if_pos ⟨h5, h6⟩]
  simp only [nat_and_15, nat_and_63, nat_shl_6, Prod.mk.injEq, Option.some.injEq]
  exact ⟨by ring, trivial⟩

theorem decode_4b (t c1 c2 c3 : Nat) (p : List Nat) (h1 : 0xf0 ≤ t) (h2 : t ≤ 0xf4)
    (h3 : (if t = 0xf0 then 0x90 else 0x80) ≤ c1) (h4 : c1 ≤ (if t = 0xf4 then 0x8f else 0xbf))
    (h5 : 0x80 ≤ c2) (h6 : c2 ≤ 0xbf) (h7 : 0x80 ≤ c3) (h8 : c3 ≤ 0xbf) :
    duk__wtf8_sanitize_decode t (c1 :: c2 :: c3 :: p) =
      (some ((t % 0x8) * 0x40000 + (c1 % 0x40) * 0x1000 + (c2 % 0x40) * 0x40 + c3 % 0x40), p) := by
  unfold duk__wtf8_sanitize_decode
  rw [if_pos (by omega : 0xc2 ≤ t), if_neg (by omega : ¬ t ≤ 0xdf),
    if_neg (by omega : ¬ t ≤ 0xef), if_pos h2, cont_three_cons,
    if_pos ⟨h3, h4⟩, if_pos ⟨h5, h6⟩, if_pos ⟨h7, h8⟩]
  simp only [nat_and_7, nat_and_63, nat_shl_6, Prod.mk.injEq, Option.some.injEq]
  exact ⟨by ring, trivial⟩

theorem decode_some_inv (t cp : Nat) (p rest : List Nat)
    (h : duk__wtf8_sanitize_decode t p = (some cp, rest)) :
    (0xc2 ≤ t ∧ t ≤ 0xdf ∧ ∃ c1, p = c1 :: rest ∧ 0x80 ≤ c1 ∧ c1 ≤ 0xbf ∧
      cp = (t % 0x20) * 0x40 + c1 % 0x40) ∨
    (0xe0 ≤ t ∧ t ≤ 0xef ∧ ∃ c1 c2, p = c1 :: c2 :: rest ∧
      (if t = 0xe0 then 0xa0 else 0x80) ≤ c1 ∧ c1 ≤ 0xbf ∧ 0x80 ≤ c2 ∧ c2 ≤ 0xbf ∧
      cp = (t % 0x10) * 0x1000 + (c1 % 0x40) * 0x40 + c2 % 0x40) ∨
    (0xf0 ≤ t ∧ t ≤ 0xf4 ∧ ∃ c1 c2 c3, p = c1 :: c2 :: c3 :: rest ∧
      (if t = 0xf0 then 0x90 else 0x80) ≤ c1 ∧ c1 ≤ (if t = 0xf4 then 0x8f else 0xbf) ∧
      0x80 ≤ c2 ∧ c2 ≤ 0xbf ∧ 0x80 ≤ c3 ∧ c3 ≤ 0xbf ∧
      cp = (t % 0x8) * 0x40000 + (c1 % 0x40) * 0x1000 + (c2 % 0x40) * 0x40 + c3 % 0x40) := by
  by_cases hc2 : 0xc2 ≤ t
  case neg =>
    unfold duk__wtf8_sanitize_decode at h
    rw [if_neg hc2] at h
    simp at h
  by_cases hdf : t ≤ 0xdf
  · -- 2-byte
    left
    refine ⟨hc2, hdf, ?_⟩
    cases p with
    | nil =>
      unfold duk__wtf8_sanitize_decode at h
      rw [if_pos hc2, if_pos hdf, cont_one_nil] at h
      simp at h
    | cons c1 p1 =>
      by_cases hr : 0x80 ≤ c1 ∧ c1 ≤ 0xbf
      · rw [decode_2b t c1 p1 hc2 hdf hr.1 hr.2] at h
        simp only [Prod.mk.injEq, Option.some.injEq] at h
        exact ⟨c1, by rw [h.2], hr.1, hr.2, h.1.symm⟩
      · unfold duk__wtf8_sanitize_decode at h
        rw [if_pos hc2, if_pos hdf, cont_one_cons, if_neg hr] at h
        simp at h
  by_cases hef : t ≤ 0xef
  · -- 3-byte
    right; left
    refine ⟨by omega, hef, ?_⟩
    cases p with
    | nil =>
      unfold duk__wtf8_sanitize_decode at h
      rw [if_pos hc2, if_neg hdf, if_pos hef, cont_two_nil] at h
      simp at h
    | cons c1 p1 =>
      by_cases hr1 : (if t = 0xe0 then 0xa0 else 0x80) ≤ c1 ∧ c1 ≤ 0xbf
      · cases p1 with
        | nil =>
          unfold duk__wtf8_sanitize_decode at h
          rw [if_pos hc2, if_neg hdf, if_pos hef, cont_two_one, if_pos hr1] at h
          simp at h
        | cons c2 p2 =>
          by_cases hr2 : 0x80 ≤ c2 ∧ c2 ≤ 0xbf
          · rw [decode_3b t c1 c2 p2 (by omega) hef hr1.1 hr1.2 hr2.1 hr2.2] at h
            simp only [Prod.mk.injEq, Option.some.injEq] at h
            exact ⟨c1, c2, by rw [h.2], hr1.1, hr1.2, hr2.1, hr2.2, h.1.symm⟩
          · unfold duk__wtf8_sanitize_decode at h
            rw [if_pos hc2, if_neg hdf, if_pos hef, cont_two_cons, if_pos hr1, if_neg hr2] at h
            simp at h
      · unfold duk__wtf8_sanitize_decode at h
        cases p1 with
        | nil =>
          rw [if_pos hc2, if_neg hdf, if_pos hef, cont_two_one, if_neg hr1] at h
          simp at h
        | cons c2 p2 =>
          rw [if_pos hc2, if_neg hdf, if_pos hef, cont_two_cons, if_neg hr1] at h
          simp at h
  by_cases hf4 : t ≤ 0xf4
  · -- 4-byte
    right; right
    refine ⟨by omega, hf4, ?_⟩
    cases p with
    | nil =>
      unfold duk__wtf8_sanitize_decode at h
      rw [if_pos hc2, if_neg hdf, if_neg hef, if_pos hf4, cont_three_nil] at h
      simp at h
    | cons c1 p1 =>
      by_cases hr1 : (if t = 0xf0 then 0x90 else 0x80) ≤ c1 ∧ c1 ≤ (if t = 0xf4 then 0x8f else 0xbf)
      · cases p1 with
        | nil =>
          unfold duk__wtf8_sanitize_decode at h
          rw [if_pos hc2, if_neg hdf, if_neg hef, if_pos hf4, cont_three_one, if_pos hr1] at h
          simp at h
        | cons c2 p2 =>
          by_cases hr2 : 0x80 ≤ c2 ∧ c2 ≤ 0xbf
          · cases p2 with
            | nil =>
              unfold duk__wtf8_sanitize_decode at h
              rw [if_pos hc2, if_neg hdf, if_neg hef, if_pos hf4, cont_three_two,
                if_pos hr1, if_pos hr2] at h
              simp at h
            | cons c3 p3 =>
              by_cases hr3 : 0x80 ≤ c3 ∧ c3 ≤ 0xbf
              · rw [decode_4b t c1 c2 c3 p3 (by omega) hf4 hr1.1 hr1.2 hr2.1 hr2.2 hr3.1 hr3.2] at h
                simp only [Prod.mk.injEq, Option.some.injEq] at h
                exact ⟨c1, c2, c3, by rw [h.2], hr1.1, hr1.2, hr2.1, hr2.2, hr3.1, hr3.2, h.1.symm⟩
              · unfold duk__wtf8_sanitize_decode at h
                rw [if_pos hc2, if_neg hdf, if_neg hef, if_pos hf4, cont_three_cons,
                  if_pos hr1, if_pos hr2, if_neg hr3] at h
                simp at h
          · unfold duk__wtf8_sanitize_decode at h
            cases p2 with
            | nil =>
              rw [if_pos hc2, if_neg hdf, if_neg hef, if_pos hf4, cont_three_two,
                if_pos hr1, if_neg hr2] at h
              simp at h
            | cons c3 p3 =>
              rw [if_pos hc2, if_neg hdf, if_neg hef, if_pos hf4, cont_three_cons,
                if_pos hr1, if_neg hr2] at h
              simp at h
      · unfold duk__wtf8_sanitize_decode at h
        cases p1 with
        | nil =>
          rw [if_pos hc2, if_neg hdf, if_neg hef, if_pos hf4, cont_three_one, if_neg hr1] at h
          simp at h
        | cons c2 p2 =>
          cases p2 with
          | nil =>
            rw [if_pos hc2, if_neg hdf, if_neg hef, if_pos hf4, cont_three_two, if_neg hr1] at h
            simp at h
          | cons c3 p3 =>
            rw [if_pos hc2, if_neg hdf, if_neg hef, if_pos hf4, cont_three_cons, if_neg hr1] at h
            simp at h
  · unfold duk__wtf8_sanitize_decode at h
    rw [if_pos hc2, if_neg hdf, if_neg hef, if_neg hf4] at h
    simp at h

/-- Any successfully decoded codepoint is in `[0x80, 0x10FFFF]`. -/
theorem decode_some_bounds (t cp : Nat) (p rest : List Nat)
    (h : duk__wtf8_sanitize_decode t p = (some cp, rest)) :
    0x80 ≤ cp ∧ cp ≤ 0x10ffff := by
  rcases decode_some_inv t cp p rest h with
    ⟨h1, h2, c1, _, h3, h4, h5⟩ |
    ⟨h1, h2, c1, c2, _, h3, h4, h5, h6, h7⟩ |
    ⟨h1, h2, c1, c2, c3, _, h3, h4, h5, h6, h7, h8, h9⟩
  · subst h5
    omega
  · subst h7
    by_cases he : t = 0xe0
    · rw [if_pos he] at h3
      subst he
      omega
    · rw [if_neg he] at h3
      omega
  · subst h9
    by_cases hf0 : t = 0xf0
    · rw [if_pos hf0] at h3
      subst hf0
      simp at h4
      omega
    · rw [if_neg hf0] at h3
      by_cases hf44 : t = 0xf4
      · rw [if_pos hf44] at h4
        subst hf44
        omega
      · rw [if_neg hf44] at h4
        omega

/-! ## Helper lemmas: emission -/

/-- The emitted bytes agree with the spec-side encoder for every scalar
the sanitizer can emit. -/
theorem emit_eq_wtf8Enc (cp : Nat) (h : 0x80 ≤ cp) :
    (duk__wtf8_sanitize_emit cp).1 = wtf8Enc cp := by
  unfold duk__wtf8_sanitize_emit wtf8Enc
  simp only [nat_and_63, nat_shr_6, nat_shr_12, nat_shr_18]
  split_ifs <;> first | rfl | omega

/-- Re-encoding a decoded 2-byte sequence reproduces its bytes. -/
theorem emit_rt_2b (t c1 : Nat) (h1 : 0xc2 ≤ t) (h2 : t ≤ 0xdf)
    (h3 : 0x80 ≤ c1) (h4 : c1 ≤ 0xbf) :
    duk__wtf8_sanitize_emit ((t % 0x20) * 0x40 + c1 % 0x40) = ([t, c1], 1) := by
  unfold duk__wtf8_sanitize_emit
  rw [if_pos (by omega : (t % 0x20) * 0x40 + c1 % 0x40 ≤ 0x7ff)]
  simp only [nat_and_63, nat_shr_6, Prod.mk.injEq, List.cons.injEq, and_true]
  omega

/-- Re-encoding a decoded 3-byte sequence reproduces its bytes. -/
theorem emit_rt_3b (t c1 c2 : Nat) (h1 : 0xe0 ≤ t) (h2 : t ≤ 0xef)
    (h3 : (if t = 0xe0 then 0xa0 else 0x80) ≤ c1) (h4 : c1 ≤ 0xbf)
    (h5 : 0x80 ≤ c2) (h6 : c2 ≤ 0xbf) :
    duk__wtf8_sanitize_emit ((t % 0x10) * 0x1000 + (c1 % 0x40) * 0x40 + c2 % 0x40) =
      ([t, c1, c2], 2) := by
  have hlow : 0x800 ≤ (t % 0x10) * 0x1000 + (c1 % 0x40) * 0x40 + c2 % 0x40 := by
    by_cases he : t = 0xe0
    · rw [if_pos he] at h3
      subst he
      omega
    · rw [if_neg he] at h3
      omega
  have h3L : 0x80 ≤ c1 := by
    by_cases he : t = 0xe0
    · rw [if_pos he] at h3
      omega
    · rw [if_neg he] at h3
      omega
  unfold duk__wtf8_sanitize_emit
  rw [if_neg (by omega), if_pos (by omega : (t % 0x10) * 0x1000 + (c1 % 0x40) * 0x40 + c2 % 0x40 ≤ 0xffff)]
  simp only [nat_and_63, nat_shr_6, nat_shr_12, Prod.mk.injEq, List.cons.injEq, and_true]
  omega

/-- Re-encoding a decoded 4-byte sequence reproduces its bytes. -/
theorem emit_rt_4b (t c1 c2 c3 : Nat) (h1 : 0xf0 ≤ t) (h2 : t ≤ 0xf4)
    (h3 : (if t = 0xf0 then 0x90 else 0x80) ≤ c1) (h4 : c1 ≤ (if t = 0xf4 then 0x8f else 0xbf))
    (h5 : 0x80 ≤ c2) (h6 : c2 ≤ 0xbf) (h7 : 0x80 ≤ c3) (h8 : c3 ≤ 0xbf) :
    duk__wtf8_sanitize_emit ((t % 0x8) * 0x40000 + (c1 % 0x40) * 0x1000 + (c2 % 0x40) * 0x40 + c3 % 0x40) =
      ([t, c1, c2, c3], 3) := by
  have hlow : 0x10000 ≤ (t % 0x8) * 0x40000 + (c1 % 0x40) * 0x1000 + (c2 % 0x40) * 0x40 + c3 % 0x40 := by
    by_cases he : t = 0xf0
    · subst he
      rw [if_pos rfl] at h3
      rw [if_neg (by omega)] at h4
      omega
    · rw [if_neg he] at h3
      omega
  have h3L : 0x80 ≤ c1 := by
    by_cases he : t = 0xf0
    · rw [if_pos he] at h3
      omega
    · rw [if_neg he] at h3
      omega
  have h4U : c1 ≤ 0xbf := by
    by_cases he : t = 0xf4
    · rw [if_pos he] at h4
      omega
    · rw [if_neg he] at h4
      omega
  unfold duk__wtf8_sanitize_emit
  rw [if_neg (by omega), if_neg (by omega)]
  simp only [nat_and_63, nat_shr_6, nat_shr_12, nat_shr_18, Prod.mk.injEq, List.cons.injEq, and_true]
  omega

/-! ## Helper lemmas: validator steps -/

theorem valid_nil : duk_unicode_is_valid_wtf8 [] = true := by
  rw [duk_unicode_is_valid_wtf8]

theorem valid_ascii_cons (t : Nat) (p : List Nat) (h : t ≤ 0x7f) :
    duk_unicode_is_valid_wtf8 (t :: p) = duk_unicode_is_valid_wtf8 p := by
  rw [duk_unicode_is_valid_wtf8]
  rw [if_pos h]

theorem valid_2b_cons (t c1 : Nat) (p : List Nat) (h1 : 0xc2 ≤ t) (h2 : t ≤ 0xdf)
    (h3 : 0x80 ≤ c1) (h4 : c1 ≤ 0xbf) :
    duk_unicode_is_valid_wtf8 (t :: c1 :: p) = duk_unicode_is_valid_wtf8 p := by
  rw [duk_unicode_is_valid_wtf8]
  rw [if_neg (by omega), if_neg (by omega), if_pos h2]
  simp only [List.getD_cons_zero, List.length_cons]
  rw [if_pos ⟨by omega, h3, h4⟩]
  simp

theorem valid_3b_cons (t c1 c2 : Nat) (p : List Nat) (h1 : 0xe0 ≤ t) (h2 : t ≤ 0xef)
    (h3 : (if t = 0xe0 then 0xa0 else 0x80) ≤ c1) (h4 : c1 ≤ 0xbf)
    (h5 : 0x80 ≤ c2) (h6 : c2 ≤ 0xbf) :
    duk_unicode_is_valid_wtf8 (t :: c1 :: c2 :: p) = duk_unicode_is_valid_wtf8 p := by
  rw [duk_unicode_is_valid_wtf8]
  rw [if_neg (by omega), if_neg (by omega), if_neg (by omega), if_pos h2]
  simp only [List.getD_cons_zero, List.getD_cons_succ, List.length_cons]
  rw [if_pos ⟨by omega, h3, h4, h5, h6⟩]
  simp

theorem valid_4b_cons (t c1 c2 c3 : Nat) (p : List Nat) (h1 : 0xf0 ≤ t) (h2 : t ≤ 0xf4)
    (h3 : (if t = 0xf0 then 0x90 else 0x80) ≤ c1) (h4 : c1 ≤ (if t = 0xf4 then 0x8f else 0xbf))
    (h5 : 0x80 ≤ c2) (h6 : c2 ≤ 0xbf) (h7 : 0x80 ≤ c3) (h8 : c3 ≤ 0xbf) :
    duk_unicode_is_valid_wtf8 (t :: c1 :: c2 :: c3 :: p) = duk_unicode_is_valid_wtf8 p := by
  rw [duk_unicode_is_valid_wtf8]
  rw [if_neg (by omega), if_neg (by omega), if_neg (by omega), if_neg (by omega), if_pos h2]
  simp only [List.getD_cons_zero, List.getD_cons_succ, List.length_cons]
  rw [if_pos ⟨by omega, h3, h4, h5, h6, h7, h8⟩]
  simp

/-- Case analysis of validity at a cons cell. -/
theorem valid_cons_inv (t : Nat) (p : List Nat)
    (h : duk_unicode_is_valid_wtf8 (t :: p) = true) :
    (t ≤ 0x7f ∧ duk_unicode_is_valid_wtf8 p = true) ∨
    (0xc2 ≤ t ∧ t ≤ 0xdf ∧ ∃ c1 p1, p = c1 :: p1 ∧ 0x80 ≤ c1 ∧ c1 ≤ 0xbf ∧
      duk_unicode_is_valid_wtf8 p1 = true) ∨
    (0xe0 ≤ t ∧ t ≤ 0xef ∧ ∃ c1 c2 p2, p = c1 :: c2 :: p2 ∧
      (if t = 0xe0 then 0xa0 else 0x80) ≤ c1 ∧ c1 ≤ 0xbf ∧ 0x80 ≤ c2 ∧ c2 ≤ 0xbf ∧
      duk_unicode_is_valid_wtf8 p2 = true) ∨
    (0xf0 ≤ t ∧ t ≤ 0xf4 ∧ ∃ c1 c2 c3 p3, p = c1 :: c2 :: c3 :: p3 ∧
      (if t = 0xf0 then 0x90 else 0x80) ≤ c1 ∧ c1 ≤ (if t = 0xf4 then 0x8f else 0xbf) ∧
      0x80 ≤ c2 ∧ c2 ≤ 0xbf ∧ 0x80 ≤ c3 ∧ c3 ≤ 0xbf ∧
      duk_unicode_is_valid_wtf8 p3 = true) := by
  rw [duk_unicode_is_valid_wtf8] at h
  by_cases h7f : t ≤ 0x7f
  · rw [if_pos h7f] at h
    exact Or.inl ⟨h7f, h⟩
  rw [if_neg h7f] at h
  by_cases hc1b : t ≤ 0xc1
  · rw [if_pos hc1b] at h
    simp at h
  rw [if_neg hc1b] at h
  by_cases hdf : t ≤ 0xdf
  · rw [if_pos hdf] at h
    refine Or.inr (Or.inl ⟨by omega, hdf, ?_⟩)
    by_cases hcnd : 2 ≤ 1 + p.length ∧ 0x80 ≤ p.getD 0 0 ∧ p.getD 0 0 ≤ 0xbf
    · rw [if_pos hcnd] at h
      match p, hcnd with
      | c1 :: p1, hcnd =>
        simp only [List.getD_cons_zero] at hcnd
        refine ⟨c1, p1, rfl, hcnd.2.1, hcnd.2.2, ?_⟩
        simpa using h
    · rw [if_neg hcnd] at h
      simp at h
  rw [if_neg hdf] at h
  by_cases hef : t ≤ 0xef
  · rw [if_pos hef] at h
    refine Or.inr (Or.inr (Or.inl ⟨by omega, hef, ?_⟩))
    by_cases hcnd : 3 ≤ 1 + p.length ∧ (if t = 0xe0 then 0xa0 else 0x80) ≤ p.getD 0 0 ∧
        p.getD 0 0 ≤ 0xbf ∧ 0x80 ≤ p.getD 1 0 ∧ p.getD 1 0 ≤ 0xbf
    · rw [if_pos hcnd] at h
      match p, hcnd with
      | [c1], hcnd => simp at hcnd
      | c1 :: c2 :: p2, hcnd =>
        simp only [List.getD_cons_zero, List.getD_cons_succ] at hcnd
        refine ⟨c1, c2, p2, rfl, hcnd.2.1, hcnd.2.2.1, hcnd.2.2.2.1, hcnd.2.2.2.2, ?_⟩
        simpa using h
    · rw [if_neg hcnd] at h
      simp at h
  rw [if_neg hef] at h
  by_cases hf4 : t ≤ 0xf4
  · rw [if_pos hf4] at h
    refine Or.inr (Or.inr (Or.inr ⟨by omega, hf4, ?_⟩))
    by_cases hcnd : 4 ≤ 1 + p.length ∧ (if t = 0xf0 then 0x90 else 0x80) ≤ p.getD 0 0 ∧
        p.getD 0 0 ≤ (if t = 0xf4 then 0x8f else 0xbf) ∧
        0x80 ≤ p.getD 1 0 ∧ p.getD 1 0 ≤ 0xbf ∧ 0x80 ≤ p.getD 2 0 ∧ p.getD 2 0 ≤ 0xbf
    · rw [if_pos hcnd] at h
      match p, hcnd with
      | [c1], hcnd => simp at hcnd
      | [c1, c2], hcnd => simp at hcnd
      | c1 :: c2 :: c3 :: p3, hcnd =>
        simp only [List.getD_cons_zero, List.getD_cons_succ] at hcnd
        refine ⟨c1, c2, c3, p3, rfl, hcnd.2.1, hcnd.2.2.1, hcnd.2.2.2.1, hcnd.2.2.2.2.1,
          hcnd.2.2.2.2.2.1, hcnd.2.2.2.2.2.2, ?_⟩
        simpa using h
    · rw [if_neg hcnd] at h
      simp at h
  · rw [if_neg hf4] at h
    simp at h

/-- Bytes emitted for any scalar in `[0x80, 0x10FFFF]` form one valid
WTF-8 sequence. -/
theorem valid_emit (cp : Nat) (rest : List Nat) (h1 : 0x80 ≤ cp) (h2 : cp ≤ 0x10ffff) :
    duk_unicode_is_valid_wtf8 ((duk__wtf8_sanitize_emit cp).1 ++ rest) =
      duk_unicode_is_valid_wtf8 rest := by
  unfold duk__wtf8_sanitize_emit
  by_cases hc : cp ≤ 0x7ff
  · rw [if_pos hc]
    simp only [List.cons_append, List.nil_append, nat_shr_6, nat_and_63]
    apply valid_2b_cons <;> omega
  by_cases hc2 : cp ≤ 0xffff
  · rw [if_neg hc, if_pos hc2]
    simp only [List.cons_append, List.nil_append, nat_shr_6, nat_shr_12, nat_and_63]
    apply valid_3b_cons <;> first
      | omega
      | (split_ifs with hx
         · omega
         · omega)
  · rw [if_neg hc, if_neg hc2]
    simp only [List.cons_append, List.nil_append, nat_shr_6, nat_shr_12, nat_shr_18, nat_and_63]
    apply valid_4b_cons <;> first
      | omega
      | (split_ifs with hx
         · omega
         · omega)

/-- Strong-induction helper for claim C3: the sanitizer only outputs
valid WTF-8. -/
theorem san_valid_aux :
    ∀ n, ∀ l : List Nat, l.length ≤ n →
      duk_unicode_is_valid_wtf8 (duk__unicode_wtf8_sanitize_string_reference l).1 = true := by
  intro n
  induction n with
  | zero =>
    intro l hl
    have : l = [] := List.eq_nil_of_length_eq_zero (by omega)
    subst this
    rw [san_nil]
    exact valid_nil
  | succ n ih =>
    intro l hl
    match l with
    | [] =>
      rw [san_nil]
      exact valid_nil
    | t :: p =>
      simp only [List.length_cons] at hl
      by_cases h80 : t < 0x80
      · rw [san_ascii t p h80, valid_ascii_cons t _ (by omega)]
        exact ih p (by omega)
      · rcases hdec : duk__wtf8_sanitize_decode t p with ⟨ocp, rest⟩
        have hrl : rest.length ≤ p.length := by
          have hx := duk__wtf8_sanitize_decode_length t p
          rw [hdec] at hx
          exact hx
        cases ocp with
        | none =>
          rw [san_repl t p rest h80 hdec]
          have hrec := ih rest (by omega)
          have hv : duk_unicode_is_valid_wtf8
              (0xef :: 0xbf :: 0xbd :: (duk__unicode_wtf8_sanitize_string_reference rest).1) =
              duk_unicode_is_valid_wtf8 (duk__unicode_wtf8_sanitize_string_reference rest).1 := by
            apply valid_3b_cons <;> norm_num
          rw [hv]
          exact hrec
        | some cp =>
          by_cases hs : 0xd800 ≤ cp ∧ cp < 0xdc00 ∧ duk__wtf8_pair_check rest = true
          · rw [san_pair t cp p rest h80 hdec hs]
            have hb2 : 0x10000 ≤ 0x10000 + ((cp &&& 0x3ff) <<< 10) +
                (((rest.getD 1 0) &&& 0x0f) <<< 6) + ((rest.getD 2 0) &&& 0x3f) ∧
                0x10000 + ((cp &&& 0x3ff) <<< 10) +
                (((rest.getD 1 0) &&& 0x0f) <<< 6) + ((rest.getD 2 0) &&& 0x3f) ≤ 0x10ffff := by
              rw [nat_and_1023, nat_and_15, nat_and_63, nat_shl_10, nat_shl_6]
              omega
            rw [valid_emit _ _ (by omega) hb2.2]
            exact ih (rest.drop 3) (by simp only [List.length_drop]; omega)
          · rw [san_emit t cp p rest h80 hdec hs]
            have hb := decode_some_bounds t cp p rest hdec
            rw [valid_emit _ _ hb.1 hb.2]
            exact ih rest (by omega)

/-! ## Helper lemmas: per-codepoint extra bytes of the output -/

theorem clenSub_nil : wtf8ClenSubOf [] = 0 := by
  rw [wtf8ClenSubOf]

theorem clenSub_ascii (t : Nat) (out : List Nat) (h : t ≤ 0x7f) :
    wtf8ClenSubOf (t :: out) = wtf8ClenSubOf out := by
  rw [wtf8ClenSubOf]
  unfold wtf8SeqLen
  rw [if_pos h, if_pos h]
  simp

theorem clenSub_2b (t c1 : Nat) (out : List Nat) (h1 : 0x80 ≤ t) (h2 : t ≤ 0xdf) :
    wtf8ClenSubOf (t :: c1 :: out) = 1 + wtf8ClenSubOf out := by
  rw [wtf8ClenSubOf]
  unfold wtf8SeqLen
  rw [if_neg (by omega), if_pos h2, if_neg (by omega), if_pos h2]
  simp

theorem clenSub_3b (t c1 c2 : Nat) (out : List Nat) (h1 : 0xe0 ≤ t) (h2 : t ≤ 0xef) :
    wtf8ClenSubOf (t :: c1 :: c2 :: out) = 2 + wtf8ClenSubOf out := by
  rw [wtf8ClenSubOf]
  unfold wtf8SeqLen
  rw [if_neg (by omega), if_neg (by omega), if_pos h2, if_neg (by omega),
    if_neg (by omega), if_pos h2]
  simp

theorem clenSub_4b (t c1 c2 c3 : Nat) (out : List Nat) (h1 : 0xf0 ≤ t) :
    wtf8ClenSubOf (t :: c1 :: c2 :: c3 :: out) = 3 + wtf8ClenSubOf out := by
  rw [wtf8ClenSubOf]
  unfold wtf8SeqLen
  rw [if_neg (by omega), if_neg (by omega), if_neg (by omega), if_neg (by omega),
    if_neg (by omega), if_neg (by omega)]
  simp

theorem clenSub_emit (cp : Nat) (out : List Nat) (h1 : 0x80 ≤ cp) (h2 : cp ≤ 0x10ffff) :
    wtf8ClenSubOf ((duk__wtf8_sanitize_emit cp).1 ++ out) =
      (duk__wtf8_sanitize_emit cp).2 + wtf8ClenSubOf out := by
  unfold duk__wtf8_sanitize_emit
  by_cases hc : cp ≤ 0x7ff
  · rw [if_pos hc]
    simp only [List.cons_append, List.nil_append, nat_shr_6, nat_and_63]
    rw [clenSub_2b _ _ _ (by omega) (by omega)]
  by_cases hc2 : cp ≤ 0xffff
  · rw [if_neg hc, if_pos hc2]
    simp only [List.cons_append, List.nil_append, nat_shr_6, nat_shr_12, nat_and_63]
    rw [clenSub_3b _ _ _ _ (by omega) (by omega)]
  · rw [if_neg hc, if_neg hc2]
    simp only [List.cons_append, List.nil_append, nat_shr_6, nat_shr_12, nat_shr_18, nat_and_63]
    rw [clenSub_4b _ _ _ _ _ (by omega)]

/-- Strong-induction helper for claim C4: the sanitizer's `out_clen_sub`
accumulator equals the per-codepoint extra-byte sum of the output. -/
theorem san_clensub_aux :
    ∀ n, ∀ l : List Nat, l.length ≤ n →
      (duk__unicode_wtf8_sanitize_string_reference l).2 =
        wtf8ClenSubOf (duk__unicode_wtf8_sanitize_string_reference l).1 := by
  intro n
  induction n with
  | zero =>
    intro l hl
    have : l = [] := List.eq_nil_of_length_eq_zero (by omega)
    subst this
    rw [san_nil]
    rw [clenSub_nil]
  | succ n ih =>
    intro l hl
    match l with
    | [] =>
      rw [san_nil]
      rw [clenSub_nil]
    | t :: p =>
      simp only [List.length_cons] at hl
      by_cases h80 : t < 0x80
      · rw [san_ascii t p h80]
        rw [clenSub_ascii t _ (by omega)]
        exact ih p (by omega)
      · rcases hdec : duk__wtf8_sanitize_decode t p with ⟨ocp, rest⟩
        have hrl : rest.length ≤ p.length := by
          have hx := duk__wtf8_sanitize_decode_length t p
          rw [hdec] at hx
          exact hx
        cases ocp with
        | none =>
          rw [san_repl t p rest h80 hdec]
          have h3 : wtf8ClenSubOf
              (0xef :: 0xbf :: 0xbd :: (duk__unicode_wtf8_sanitize_string_reference rest).1) =
              2 + wtf8ClenSubOf (duk__unicode_wtf8_sanitize_string_reference rest).1 :=
            clenSub_3b _ _ _ _ (by omega) (by omega)
          rw [h3, ← ih rest (by omega)]
          omega
        | some cp =>
          by_cases hs : 0xd800 ≤ cp ∧ cp < 0xdc00 ∧ duk__wtf8_pair_check rest = true
          · rw [san_pair t cp p rest h80 hdec hs]
            have hb2 : 0x10000 ≤ 0x10000 + ((cp &&& 0x3ff) <<< 10) +
                (((rest.getD 1 0) &&& 0x0f) <<< 6) + ((rest.getD 2 0) &&& 0x3f) ∧
                0x10000 + ((cp &&& 0x3ff) <<< 10) +
                (((rest.getD 1 0) &&& 0x0f) <<< 6) + ((rest.getD 2 0) &&& 0x3f) ≤ 0x10ffff := by
              rw [nat_and_1023, nat_and_15, nat_and_63, nat_shl_10, nat_shl_6]
              omega
            rw [clenSub_emit _ _ (by omega) hb2.2]
            rw [← ih (rest.drop 3) (by simp only [List.length_drop]; omega)]
          · rw [san_emit t cp p rest h80 hdec hs]
            have hb := decode_some_bounds t cp p rest hdec
            rw [clenSub_emit _ _ hb.1 hb.2]
            rw [← ih rest (by omega)]

/-! ## Helper lemmas: surrogate-pair lookahead and the spec-side coalescer -/

theorem pair_check_iff (l : List Nat) :
    duk__wtf8_pair_check l = true ↔
      3 ≤ l.length ∧ l.getD 0 0 = 0xed ∧ 0xb0 ≤ l.getD 1 0 ∧ l.getD 1 0 ≤ 0xbf ∧
        0x80 ≤ l.getD 2 0 ∧ l.getD 2 0 ≤ 0xbf := by
  match l with
  | [] => simp [duk__wtf8_pair_check]
  | [a] => simp [duk__wtf8_pair_check]
  | [a, b] => simp [duk__wtf8_pair_check]
  | a :: b :: c :: rest =>
    simp [duk__wtf8_pair_check, List.getD_cons_zero, List.getD_cons_succ]
    omega

theorem coal_nil : wtf8CoalescePairsSpec [] = [] := by
  rw [wtf8CoalescePairsSpec]

theorem coal_ascii (t : Nat) (rest : List Nat) (h : t ≤ 0x7f) :
    wtf8CoalescePairsSpec (t :: rest) = t :: wtf8CoalescePairsSpec rest := by
  rw [wtf8CoalescePairsSpec]
  rw [if_neg (by rintro ⟨-, ht, -⟩; omega)]
  unfold wtf8SeqLen
  rw [if_pos h]
  simp

theorem coal_2b (t c1 : Nat) (rest : List Nat) (h1 : 0x80 ≤ t) (h2 : t ≤ 0xdf) :
    wtf8CoalescePairsSpec (t :: c1 :: rest) = t :: c1 :: wtf8CoalescePairsSpec rest := by
  rw [wtf8CoalescePairsSpec]
  rw [if_neg (by rintro ⟨-, ht, -⟩; omega)]
  unfold wtf8SeqLen
  rw [if_neg (by omega), if_pos h2]
  simp

theorem coal_3b_notpair (t c1 c2 : Nat) (rest : List Nat) (h1 : 0xe0 ≤ t) (h2 : t ≤ 0xef)
    (hnp : ¬(5 ≤ (c1 :: c2 :: rest).length ∧ t = 0xed ∧ (c1 :: c2 :: rest).getD 2 0 = 0xed ∧
      0xa0 ≤ (c1 :: c2 :: rest).getD 0 0 ∧ (c1 :: c2 :: rest).getD 0 0 ≤ 0xaf ∧
      0x80 ≤ (c1 :: c2 :: rest).getD 1 0 ∧ (c1 :: c2 :: rest).getD 1 0 ≤ 0xbf ∧
      0xb0 ≤ (c1 :: c2 :: rest).getD 3 0 ∧ (c1 :: c2 :: rest).getD 3 0 ≤ 0xbf ∧
      0x80 ≤ (c1 :: c2 :: rest).getD 4 0 ∧ (c1 :: c2 :: rest).getD 4 0 ≤ 0xbf)) :
    wtf8CoalescePairsSpec (t :: c1 :: c2 :: rest) =
      t :: c1 :: c2 :: wtf8CoalescePairsSpec rest := by
  rw [wtf8CoalescePairsSpec]
  rw [if_neg hnp]
  unfold wtf8SeqLen
  rw [if_neg (by omega), if_neg (by omega), if_pos h2]
  simp

theorem coal_4b (t c1 c2 c3 : Nat) (rest : List Nat) (h1 : 0xf0 ≤ t) (h2 : t ≤ 0xff) :
    wtf8CoalescePairsSpec (t :: c1 :: c2 :: c3 :: rest) =
      t :: c1 :: c2 :: c3 :: wtf8CoalescePairsSpec rest := by
  rw [wtf8CoalescePairsSpec]
  rw [if_neg (by rintro ⟨-, ht, -⟩; omega)]
  unfold wtf8SeqLen
  rw [if_neg (by omega), if_neg (by omega), if_neg (by omega)]
  simp

theorem coal_pair (c1 c2 e f : Nat) (rest6 : List Nat)
    (hb1 : 0xa0 ≤ c1) (hb2 : c1 ≤ 0xaf) (hc1 : 0x80 ≤ c2) (hc2 : c2 ≤ 0xbf)
    (he1 : 0xb0 ≤ e) (he2 : e ≤ 0xbf) (hf1 : 0x80 ≤ f) (hf2 : f ≤ 0xbf) :
    wtf8CoalescePairsSpec (0xed :: c1 :: c2 :: 0xed :: e :: f :: rest6) =
      wtf8Enc (0x10000 +
        ((0xd000 + (c1 - 0x80) * 0x40 + (c2 - 0x80)) - 0xd800) * 0x400 +
        ((0xd000 + (e - 0x80) * 0x40 + (f - 0x80)) - 0xdc00)) ++
        wtf8CoalescePairsSpec rest6 := by
  rw [wtf8CoalescePairsSpec]
  rw [if_pos (⟨by simp, rfl, rfl, hb1, hb2, hc1, hc2, he1, he2, hf1, hf2⟩ :
    5 ≤ (c1 :: c2 :: 0xed :: e :: f :: rest6).length ∧ (0xed : Nat) = 0xed ∧
    (c1 :: c2 :: 0xed :: e :: f :: rest6).getD 2 0 = 0xed ∧
    0xa0 ≤ (c1 :: c2 :: 0xed :: e :: f :: rest6).getD 0 0 ∧
    (c1 :: c2 :: 0xed :: e :: f :: rest6).getD 0 0 ≤ 0xaf ∧
    0x80 ≤ (c1 :: c2 :: 0xed :: e :: f :: rest6).getD 1 0 ∧
    (c1 :: c2 :: 0xed :: e :: f :: rest6).getD 1 0 ≤ 0xbf ∧
    0xb0 ≤ (c1 :: c2 :: 0xed :: e :: f :: rest6).getD 3 0 ∧
    (c1 :: c2 :: 0xed :: e :: f :: rest6).getD 3 0 ≤ 0xbf ∧
    0x80 ≤ (c1 :: c2 :: 0xed :: e :: f :: rest6).getD 4 0 ∧
    (c1 :: c2 :: 0xed :: e :: f :: rest6).getD 4 0 ≤ 0xbf)]
  show wtf8Enc _ ++ wtf8CoalescePairsSpec ((c1 :: c2 :: 0xed :: e :: f :: rest6).drop 5) = _
  have hdrop : (c1 :: c2 :: 0xed :: e :: f :: rest6).drop 5 = rest6 := rfl
  rw [hdrop]
  rfl

/-- Strong-induction helper for claim C1: on valid WTF-8 input the
sanitizer output is exactly the input with adjacent surrogate-pair
encodings coalesced. -/
theorem san_coalesce_aux :
    ∀ n, ∀ l : List Nat, l.length ≤ n → duk_unicode_is_valid_wtf8 l = true →
      (duk__unicode_wtf8_sanitize_string_reference l).1 = wtf8CoalescePairsSpec l := by
  intro n
  induction n with
  | zero =>
    intro l hl _
    have : l = [] := List.eq_nil_of_length_eq_zero (by omega)
    subst this
    rw [san_nil, coal_nil]
  | succ n ih =>
    intro l hl hv
    match l with
    | [] => rw [san_nil, coal_nil]
    | t :: p =>
      simp only [List.length_cons] at hl
      rcases valid_cons_inv t p hv with
        ⟨h7f, hvp⟩ |
        ⟨ht1, ht2, c1, p1, hp, hc1a, hc1b, hvp⟩ |
        ⟨ht1, ht2, c1, c2, p2, hp, hlo, hhi, hc2a, hc2b, hvp⟩ |
        ⟨ht1, ht2, c1, c2, c3, p3, hp, hlo, hhi, hc2a, hc2b, hc3a, hc3b, hvp⟩
      · -- ASCII byte
        rw [san_ascii t p (by omega), coal_ascii t p h7f]
        dsimp only
        rw [ih p (by omega) hvp]
      · -- 2-byte sequence
        subst hp
        simp only [List.length_cons] at hl
        have hdec := decode_2b t c1 p1 ht1 ht2 hc1a hc1b
        rw [san_emit t ((t % 0x20) * 0x40 + c1 % 0x40) (c1 :: p1) p1 (by omega) hdec
          (by rintro ⟨hx, -⟩; omega)]
        rw [emit_rt_2b t c1 ht1 ht2 hc1a hc1b]
        dsimp only
        rw [ih p1 (by omega) hvp]
        rw [coal_2b t c1 p1 (by omega) ht2]
        simp
      · -- 3-byte sequence
        subst hp
        simp only [List.length_cons] at hl
        have hdec := decode_3b t c1 c2 p2 ht1 ht2 hlo hhi hc2a hc2b
        have hc1lo : 0x80 ≤ c1 := by
          by_cases he : t = 0xe0
          · rw [if_pos he] at hlo
            omega
          · rw [if_neg he] at hlo
            omega
        by_cases hsur : 0xd800 ≤ (t % 0x10) * 0x1000 + (c1 % 0x40) * 0x40 + c2 % 0x40 ∧
            (t % 0x10) * 0x1000 + (c1 % 0x40) * 0x40 + c2 % 0x40 < 0xdc00
        · by_cases hpc : duk__wtf8_pair_check p2 = true
          · -- paired high surrogate followed by low surrogate
            have hiff := (pair_check_iff p2).mp hpc
            have ht_ed : t = 0xed := by omega
            subst ht_ed
            rw [if_neg (by norm_num)] at hlo
            have hc1r : 0xa0 ≤ c1 ∧ c1 ≤ 0xaf := by omega
            rcases p2 with - | ⟨a, p2t⟩
            · simp at hiff
            rcases p2t with - | ⟨b2, p2t2⟩
            · simp at hiff
            rcases p2t2 with - | ⟨c3x, p3⟩
            · simp at hiff
            simp only [List.getD_cons_zero, List.getD_cons_succ, List.length_cons] at hiff
            obtain ⟨-, ha, hb2a, hb2b, hc3xa, hc3xb⟩ := hiff
            subst ha
            simp only [List.length_cons] at hl
            have hvp3 : duk_unicode_is_valid_wtf8 p3 = true := by
              rw [valid_3b_cons 0xed b2 c3x p3 (by omega) (by omega)
                (by rw [if_neg (by norm_num)]; omega) (by omega) hc3xa hc3xb] at hvp
              exact hvp
            rw [san_pair 0xed ((0xed % 0x10) * 0x1000 + (c1 % 0x40) * 0x40 + c2 % 0x40)
              (c1 :: c2 :: 0xed :: b2 :: c3x :: p3) (0xed :: b2 :: c3x :: p3) (by omega) hdec
              ⟨hsur.1, hsur.2, hpc⟩]
            have hg1 : (0xed :: b2 :: c3x :: p3).getD 1 0 = b2 := rfl
            have hg2 : (0xed :: b2 :: c3x :: p3).getD 2 0 = c3x := rfl
            have hg3 : (0xed :: b2 :: c3x :: p3).drop 3 = p3 := rfl
            rw [hg1, hg2, hg3]
            rw [emit_eq_wtf8Enc _ (by
              rw [nat_and_1023, nat_and_15, nat_and_63, nat_shl_10, nat_shl_6]
              omega)]
            dsimp only
            rw [ih p3 (by omega) hvp3]
            rw [coal_pair c1 c2 b2 c3x p3 hc1r.1 hc1r.2 hc2a hc2b hb2a hb2b hc3xa hc3xb]
            have harg : 0x10000 +
                (((0xed % 0x10) * 0x1000 + (c1 % 0x40) * 0x40 + c2 % 0x40) &&& 0x3ff) <<< 10 +
                ((b2 &&& 0x0f) <<< 6) + (c3x &&& 0x3f) =
                0x10000 + ((0xd000 + (c1 - 0x80) * 0x40 + (c2 - 0x80)) - 0xd800) * 0x400 +
                ((0xd000 + (b2 - 0x80) * 0x40 + (c3x - 0x80)) - 0xdc00) := by
              rw [nat_and_1023, nat_and_15, nat_and_63, nat_shl_10, nat_shl_6]
              omega
            rw [harg]
          · -- unpaired high surrogate, kept as is
            rw [san_emit t ((t % 0x10) * 0x1000 + (c1 % 0x40) * 0x40 + c2 % 0x40)
              (c1 :: c2 :: p2) p2 (by omega) hdec (by rintro ⟨-, -, hx⟩; exact hpc hx)]
            rw [emit_rt_3b t c1 c2 ht1 ht2 hlo hhi hc2a hc2b]
            dsimp only
            rw [ih p2 (by omega) hvp]
            rw [coal_3b_notpair t c1 c2 p2 ht1 ht2 (by
              rintro ⟨hl5, hted, hd, hb1, hb2x, hcc1, hcc2, he1, he2, hf1, hf2⟩
              apply hpc
              rw [pair_check_iff p2]
              have hg0 : (c1 :: c2 :: p2).getD 2 0 = p2.getD 0 0 := rfl
              have hg1 : (c1 :: c2 :: p2).getD 3 0 = p2.getD 1 0 := rfl
              have hg2 : (c1 :: c2 :: p2).getD 4 0 = p2.getD 2 0 := rfl
              simp only [List.length_cons] at hl5
              rw [hg0] at hd
              rw [hg1] at he1 he2
              rw [hg2] at hf1 hf2
              exact ⟨by omega, hd, he1, he2, hf1, hf2⟩)]
            simp
        · -- not a (high-)surrogate codepoint: re-encoded unchanged
          rw [san_emit t ((t % 0x10) * 0x1000 + (c1 % 0x40) * 0x40 + c2 % 0x40)
            (c1 :: c2 :: p2) p2 (by omega) hdec (by rintro ⟨hx, hy, -⟩; exact hsur ⟨hx, hy⟩)]
          rw [emit_rt_3b t c1 c2 ht1 ht2 hlo hhi hc2a hc2b]
          dsimp only
          rw [ih p2 (by omega) hvp]
          rw [coal_3b_notpair t c1 c2 p2 ht1 ht2 (by
            rintro ⟨-, hted, -, hb1, hb2x, hcc1, hcc2, -⟩
            have hg : (c1 :: c2 :: p2).getD 0 0 = c1 := rfl
            have hg2 : (c1 :: c2 :: p2).getD 1 0 = c2 := rfl
            rw [hg] at hb1 hb2x
            rw [hg2] at hcc1 hcc2
            omega)]
          simp
      · -- 4-byte sequence
        subst hp
        simp only [List.length_cons] at hl
        have hdec := decode_4b t c1 c2 c3 p3 ht1 ht2 hlo hhi hc2a hc2b hc3a hc3b
        have hlow : 0x10000 ≤ (t % 0x8) * 0x40000 + (c1 % 0x40) * 0x1000 + (c2 % 0x40) * 0x40 + c3 % 0x40 := by
          by_cases he : t = 0xf0
          · subst he
            rw [if_pos rfl] at hlo
            rw [if_neg (by omega)] at hhi
            omega
          · rw [if_neg he] at hlo
            omega
        rw [san_emit t ((t % 0x8) * 0x40000 + (c1 % 0x40) * 0x1000 + (c2 % 0x40) * 0x40 + c3 % 0x40)
          (c1 :: c2 :: c3 :: p3) p3 (by omega) hdec (by rintro ⟨-, hy, -⟩; omega)]
        rw [emit_rt_4b t c1 c2 c3 ht1 ht2 hlo hhi hc2a hc2b hc3a hc3b]
        dsimp only
        rw [ih p3 (by omega) hvp]
        rw [coal_4b t c1 c2 c3 p3 (by omega) (by omega)]
        simp

/-! ## Helper lemmas: character length, character count, decoding -/

theorem adj_nil : duk__wtf8_charlength_adj [] = 0 := by
  rw [duk__wtf8_charlength_adj]

theorem adj_ascii (x : Nat) (p : List Nat) (h : x ≤ 0x7f) :
    duk__wtf8_charlength_adj (x :: p) = duk__wtf8_charlength_adj p := by
  rw [duk__wtf8_charlength_adj]
  rw [if_pos h]

theorem adj_2b (x c1 : Nat) (p : List Nat) (h1 : 0x80 ≤ x) (h2 : x ≤ 0xdf) :
    duk__wtf8_charlength_adj (x :: c1 :: p) = 1 + duk__wtf8_charlength_adj p := by
  rw [duk__wtf8_charlength_adj]
  rw [if_neg (by omega), if_pos h2]
  simp

theorem adj_3b (x c1 c2 : Nat) (p : List Nat) (h1 : 0xe0 ≤ x) (h2 : x ≤ 0xef) :
    duk__wtf8_charlength_adj (x :: c1 :: c2 :: p) = 2 + duk__wtf8_charlength_adj p := by
  rw [duk__wtf8_charlength_adj]
  rw [if_neg (by omega), if_neg (by omega), if_pos h2]
  simp

theorem adj_4b (x c1 c2 c3 : Nat) (p : List Nat) (h1 : 0xf0 ≤ x) :
    duk__wtf8_charlength_adj (x :: c1 :: c2 :: c3 :: p) = 2 + duk__wtf8_charlength_adj p := by
  rw [duk__wtf8_charlength_adj]
  rw [if_neg (by omega), if_neg (by omega), if_neg (by omega)]
  simp

theorem cs_nil : wtf8CharCountSpec [] = 0 := by
  rw [wtf8CharCountSpec]

theorem cs_ascii (t : Nat) (p : List Nat) (h : t ≤ 0x7f) :
    wtf8CharCountSpec (t :: p) = 1 + wtf8CharCountSpec p := by
  rw [wtf8CharCountSpec]
  rw [if_pos h]

theorem cs_2b (t c1 : Nat) (p : List Nat) (h1 : 0xc2 ≤ t) (h2 : t ≤ 0xdf) :
    wtf8CharCountSpec (t :: c1 :: p) = 1 + wtf8CharCountSpec p := by
  rw [wtf8CharCountSpec]
  rw [if_neg (by omega), if_pos ⟨h1, h2⟩]
  simp

theorem cs_3b (t c1 c2 : Nat) (p : List Nat) (h1 : 0xe0 ≤ t) (h2 : t ≤ 0xef) :
    wtf8CharCountSpec (t :: c1 :: c2 :: p) = 1 + wtf8CharCountSpec p := by
  rw [wtf8CharCountSpec]
  rw [if_neg (by omega), if_neg (by omega), if_pos ⟨h1, h2⟩]
  simp

theorem cs_4b (t c1 c2 c3 : Nat) (p : List Nat) (h1 : 0xf0 ≤ t) (h2 : t ≤ 0xf4) :
    wtf8CharCountSpec (t :: c1 :: c2 :: c3 :: p) = 2 + wtf8CharCountSpec p := by
  rw [wtf8CharCountSpec]
  rw [if_neg (by omega), if_neg (by omega), if_neg (by omega), if_pos ⟨h1, h2⟩]
  simp

theorem dk_ascii (t : Nat) (p : List Nat) (h : t ≤ 0x7f) :
    duk_unicode_wtf8_decode_known (t :: p) = t := by
  unfold duk_unicode_wtf8_decode_known
  simp only [List.getD_cons_zero]
  rw [if_pos h]

theorem dk_2b (t c1 : Nat) (p : List Nat) (h1 : 0x80 ≤ t) (h2 : t ≤ 0xdf) :
    duk_unicode_wtf8_decode_known (t :: c1 :: p) = (t % 0x20) * 0x40 + c1 % 0x40 := by
  unfold duk_unicode_wtf8_decode_known
  simp only [List.getD_cons_zero]
  rw [if_neg (by omega), if_pos h2]
  have hg : (t :: c1 :: p).getD 1 0 = c1 := rfl
  rw [hg, nat_and_31, nat_and_63, nat_shl_6]

theorem dk_3b (t c1 c2 : Nat) (p : List Nat) (h1 : 0xe0 ≤ t) (h2 : t ≤ 0xef) :
    duk_unicode_wtf8_decode_known (t :: c1 :: c2 :: p) =
      (t % 0x10) * 0x1000 + (c1 % 0x40) * 0x40 + c2 % 0x40 := by
  unfold duk_unicode_wtf8_decode_known
  simp only [List.getD_cons_zero]
  rw [if_neg (by omega), if_neg (by omega), if_pos h2]
  have hg1 : (t :: c1 :: c2 :: p).getD 1 0 = c1 := rfl
  have hg2 : (t :: c1 :: c2 :: p).getD 2 0 = c2 := rfl
  rw [hg1, hg2]
  simp only [nat_and_15, nat_and_63, nat_shl_6, nat_shl_12]

theorem dk_4b (t c1 c2 c3 : Nat) (p : List Nat) (h1 : 0xf0 ≤ t) :
    duk_unicode_wtf8_decode_known (t :: c1 :: c2 :: c3 :: p) =
      (t % 0x8) * 0x40000 + (c1 % 0x40) * 0x1000 + (c2 % 0x40) * 0x40 + c3 % 0x40 := by
  unfold duk_unicode_wtf8_decode_known
  simp only [List.getD_cons_zero]
  rw [if_neg (by omega), if_neg (by omega), if_neg (by omega)]
  have hg1 : (t :: c1 :: c2 :: c3 :: p).getD 1 0 = c1 := rfl
  have hg2 : (t :: c1 :: c2 :: c3 :: p).getD 2 0 = c2 := rfl
  have hg3 : (t :: c1 :: c2 :: c3 :: p).getD 3 0 = c3 := rfl
  rw [hg1, hg2, hg3]
  have hsl18 : ∀ m : Nat, m <<< 18 = m * 0x40000 := fun m => Nat.shiftLeft_eq m 18
  simp only [nat_and_7, nat_and_63, nat_shl_6, nat_shl_12, hsl18]

theorem da_nil : wtf8DecodeAll [] = [] := by
  rw [wtf8DecodeAll]

theorem da_ascii (t : Nat) (p : List Nat) (h : t ≤ 0x7f) :
    wtf8DecodeAll (t :: p) = t :: wtf8DecodeAll p := by
  rw [wtf8DecodeAll]
  unfold wtf8SeqLen
  rw [if_pos h, dk_ascii t p h]
  simp

theorem da_2b (t c1 : Nat) (p : List Nat) (h1 : 0x80 ≤ t) (h2 : t ≤ 0xdf) :
    wtf8DecodeAll (t :: c1 :: p) =
      ((t % 0x20) * 0x40 + c1 % 0x40) :: wtf8DecodeAll p := by
  rw [wtf8DecodeAll]
  unfold wtf8SeqLen
  rw [if_neg (by omega), if_pos h2, dk_2b t c1 p h1 h2]
  simp

theorem da_3b (t c1 c2 : Nat) (p : List Nat) (h1 : 0xe0 ≤ t) (h2 : t ≤ 0xef) :
    wtf8DecodeAll (t :: c1 :: c2 :: p) =
      ((t % 0x10) * 0x1000 + (c1 % 0x40) * 0x40 + c2 % 0x40) :: wtf8DecodeAll p := by
  rw [wtf8DecodeAll]
  unfold wtf8SeqLen
  rw [if_neg (by omega), if_neg (by omega), if_pos h2, dk_3b t c1 c2 p h1 h2]
  simp

theorem da_4b (t c1 c2 c3 : Nat) (p : List Nat) (h1 : 0xf0 ≤ t) :
    wtf8DecodeAll (t :: c1 :: c2 :: c3 :: p) =
      ((t % 0x8) * 0x40000 + (c1 % 0x40) * 0x1000 + (c2 % 0x40) * 0x40 + c3 % 0x40) ::
        wtf8DecodeAll p := by
  rw [wtf8DecodeAll]
  unfold wtf8SeqLen
  rw [if_neg (by omega), if_neg (by omega), if_neg (by omega), dk_4b t c1 c2 c3 p h1]
  simp

/-- Strong-induction helper for claim C6: on valid WTF-8, the `adj`
accumulator complements the spec character count, and the surrogate-pair
weighted sum over decoded scalars equals that count. -/
theorem charlen_count_aux :
    ∀ n, ∀ l : List Nat, l.length ≤ n → duk_unicode_is_valid_wtf8 l = true →
      duk__wtf8_charlength_adj l + wtf8CharCountSpec l = l.length ∧
      ((wtf8DecodeAll l).map fun cp => if cp < 0x10000 then 1 else 2).sum =
        wtf8CharCountSpec l := by
  intro n
  induction n with
  | zero =>
    intro l hl _
    have : l = [] := List.eq_nil_of_length_eq_zero (by omega)
    subst this
    rw [adj_nil, cs_nil, da_nil]
    simp
  | succ n ih =>
    intro l hl hv
    match l with
    | [] =>
      rw [adj_nil, cs_nil, da_nil]
      simp
    | t :: p =>
      simp only [List.length_cons] at hl
      rcases valid_cons_inv t p hv with
        ⟨h7f, hvp⟩ |
        ⟨ht1, ht2, c1, p1, hp, hc1a, hc1b, hvp⟩ |
        ⟨ht1, ht2, c1, c2, p2, hp, hlo, hhi, hc2a, hc2b, hvp⟩ |
        ⟨ht1, ht2, c1, c2, c3, p3, hp, hlo, hhi, hc2a, hc2b, hc3a, hc3b, hvp⟩
      · obtain ⟨ihA, ihB⟩ := ih p (by omega) hvp
        rw [adj_ascii t p h7f, cs_ascii t p h7f, da_ascii t p h7f]
        constructor
        · simp only [List.length_cons]
          omega
        · simp only [List.map_cons, List.sum_cons, if_pos (by omega : t < 0x10000)]
          omega
      · subst hp
        simp only [List.length_cons] at hl
        obtain ⟨ihA, ihB⟩ := ih p1 (by omega) hvp
        rw [adj_2b t c1 p1 (by omega) ht2, cs_2b t c1 p1 ht1 ht2, da_2b t c1 p1 (by omega) ht2]
        constructor
        · simp only [List.length_cons]
          omega
        · simp only [List.map_cons, List.sum_cons,
            if_pos (by omega : (t % 0x20) * 0x40 + c1 % 0x40 < 0x10000)]
          omega
      · subst hp
        simp only [List.length_cons] at hl
        obtain ⟨ihA, ihB⟩ := ih p2 (by omega) hvp
        rw [adj_3b t c1 c2 p2 ht1 ht2, cs_3b t c1 c2 p2 ht1 ht2, da_3b t c1 c2 p2 ht1 ht2]
        constructor
        · simp only [List.length_cons]
          omega
        · simp only [List.map_cons, List.sum_cons,
            if_pos (by omega : (t % 0x10) * 0x1000 + (c1 % 0x40) * 0x40 + c2 % 0x40 < 0x10000)]
          omega
      · subst hp
        simp only [List.length_cons] at hl
        obtain ⟨ihA, ihB⟩ := ih p3 (by omega) hvp
        have hlow : 0x10000 ≤ (t % 0x8) * 0x40000 + (c1 % 0x40) * 0x1000 +
            (c2 % 0x40) * 0x40 + c3 % 0x40 := by
          by_cases he : t = 0xf0
          · subst he
            rw [if_pos rfl] at hlo
            rw [if_neg (by omega)] at hhi
            omega
          · rw [if_neg he] at hlo
            omega
        rw [adj_4b t c1 c2 c3 p3 ht1, cs_4b t c1 c2 c3 p3 ht1 ht2, da_4b t c1 c2 c3 p3 ht1]
        constructor
        · simp only [List.length_cons]
          omega
        · simp only [List.map_cons, List.sum_cons,
            if_neg (by omega : ¬ ((t % 0x8) * 0x40000 + (c1 % 0x40) * 0x1000 +
              (c2 % 0x40) * 0x40 + c3 % 0x40 < 0x10000))]
          omega

/-! ## Helper lemmas: idempotence -/

/-- If the sanitizer's output starts with a low-surrogate encoding, so
did its input: the sanitizer never manufactures a leading low
surrogate. -/
theorem san_pair_check (q : List Nat)
    (h : duk__wtf8_pair_check (duk__unicode_wtf8_sanitize_string_reference q).1 = true) :
    duk__wtf8_pair_check q = true := by
  match q with
  | [] =>
    rw [san_nil] at h
    simp [duk__wtf8_pair_check] at h
  | t :: p =>
    by_cases h80 : t < 0x80
    · rw [san_ascii t p h80] at h
      dsimp only at h
      obtain ⟨-, hg, -⟩ := (pair_check_iff _).mp h
      have : (t :: (duk__unicode_wtf8_sanitize_string_reference p).1).getD 0 0 = t := rfl
      rw [this] at hg
      omega
    · rcases hdec : duk__wtf8_sanitize_decode t p with ⟨ocp, rest⟩
      cases ocp with
      | none =>
        rw [san_repl t p rest h80 hdec] at h
        obtain ⟨-, hg, -⟩ := (pair_check_iff _).mp h
        have : (0xef :: 0xbf :: 0xbd ::
            (duk__unicode_wtf8_sanitize_string_reference rest).1).getD 0 0 = 0xef := rfl
        rw [this] at hg
        omega
      | some cp =>
        by_cases hs : 0xd800 ≤ cp ∧ cp < 0xdc00 ∧ duk__wtf8_pair_check rest = true
        · rw [san_pair t cp p rest h80 hdec hs] at h
          have hb2 : 0x10000 ≤ 0x10000 + ((cp &&& 0x3ff) <<< 10) +
              (((rest.getD 1 0) &&& 0x0f) <<< 6) + ((rest.getD 2 0) &&& 0x3f) := by omega
          unfold duk__wtf8_sanitize_emit at h
          rw [if_neg (by omega), if_neg (by
            rw [nat_and_1023, nat_and_15, nat_and_63, nat_shl_10, nat_shl_6]
            omega)] at h
          simp only [List.cons_append] at h
          obtain ⟨-, hg, -⟩ := (pair_check_iff _).mp h
          have hgr : ∀ x1 x2 x3 x4 r, (x1 :: x2 :: x3 :: x4 :: r : List Nat).getD 0 0 = x1 :=
            fun _ _ _ _ _ => rfl
          rw [hgr] at hg
          rw [nat_shr_18] at hg
          omega
        · rw [san_emit t cp p rest h80 hdec hs] at h
          have hb := decode_some_bounds t cp p rest hdec
          unfold duk__wtf8_sanitize_emit at h
          by_cases hc : cp ≤ 0x7ff
          · rw [if_pos hc] at h
            simp only [List.cons_append, List.nil_append] at h
            obtain ⟨-, hg, -⟩ := (pair_check_iff _).mp h
            have hgr : ∀ x1 x2 r, (x1 :: x2 :: r : List Nat).getD 0 0 = x1 :=
              fun _ _ _ => rfl
            rw [hgr] at hg
            rw [nat_shr_6] at hg
            omega
          by_cases hc2 : cp ≤ 0xffff
          · rw [if_neg hc, if_pos hc2] at h
            simp only [List.cons_append, List.nil_append] at h
            obtain ⟨-, hg0, hg1a, hg1b, -⟩ := (pair_check_iff _).mp h
            have hgr0 : ∀ x1 x2 x3 r, (x1 :: x2 :: x3 :: r : List Nat).getD 0 0 = x1 :=
              fun _ _ _ _ => rfl
            have hgr1 : ∀ x1 x2 x3 r, (x1 :: x2 :: x3 :: r : List Nat).getD 1 0 = x2 :=
              fun _ _ _ _ => rfl
            rw [hgr0] at hg0
            rw [hgr1] at hg1a hg1b
            rw [nat_shr_12] at hg0
            rw [nat_shr_6, nat_and_63] at hg1a hg1b
            -- the emitted sequence encodes a low surrogate
            have hcpr : 0xdc00 ≤ cp ∧ cp ≤ 0xdfff := by omega
            rcases decode_some_inv t cp p rest hdec with
              ⟨-, -, c1, -, -, -, hcp⟩ |
              ⟨ht1, ht2, c1, c2, hp, hlo2, hhi2, hc2a, hc2b, hcp⟩ |
              ⟨ht1, ht2, c1, c2, c3, -, hlo2, hhi2, hc2a, hc2b, -, -, hcp⟩
            · omega
            · subst hp
              have htl : t = 0xed := by omega
              have hcl : 0xb0 ≤ c1 ∧ c1 ≤ 0xbf := by
                by_cases he : t = 0xe0
                · omega
                · rw [if_neg he] at hlo2
                  omega
              rw [pair_check_iff]
              have g0 : (t :: c1 :: c2 :: rest).getD 0 0 = t := rfl
              have g1 : (t :: c1 :: c2 :: rest).getD 1 0 = c1 := rfl
              have g2 : (t :: c1 :: c2 :: rest).getD 2 0 = c2 := rfl
              rw [g0, g1, g2]
              simp only [List.length_cons]
              exact ⟨by omega, by omega, hcl.1, hcl.2, hc2a, hc2b⟩
            · -- a decoded 4-byte sequence is at least 0x10000
              have : 0x10000 ≤ cp := by
                by_cases he : t = 0xf0
                · subst he
                  rw [if_pos rfl] at hlo2
                  rw [if_neg (by omega)] at hhi2
                  omega
                · rw [if_neg he] at hlo2
                  omega
              omega
          · rw [if_neg hc, if_neg hc2] at h
            simp only [List.cons_append, List.nil_append] at h
            obtain ⟨-, hg, -⟩ := (pair_check_iff _).mp h
            have hgr : ∀ x1 x2 x3 x4 r, (x1 :: x2 :: x3 :: x4 :: r : List Nat).getD 0 0 = x1 :=
              fun _ _ _ _ _ => rfl
            rw [hgr] at hg
            rw [nat_shr_18] at hg
            omega

/-- Strong-induction helper for claim C7: the sanitizer's output
contains no adjacent high/low surrogate-pair encoding, so the spec-side
coalescer leaves it unchanged. -/
theorem san_nopair_aux :
    ∀ n, ∀ b : List Nat, b.length ≤ n →
      wtf8CoalescePairsSpec (duk__unicode_wtf8_sanitize_string_reference b).1 =
        (duk__unicode_wtf8_sanitize_string_reference b).1 := by
  intro n
  induction n with
  | zero =>
    intro b hb
    have : b = [] := List.eq_nil_of_length_eq_zero (by omega)
    subst this
    rw [san_nil]
    exact coal_nil
  | succ n ih =>
    intro b hb
    match b with
    | [] =>
      rw [san_nil]
      exact coal_nil
    | t :: p =>
      simp only [List.length_cons] at hb
      by_cases h80 : t < 0x80
      · rw [san_ascii t p h80]
        dsimp only
        rw [coal_ascii t _ (by omega)]
        rw [ih p (by omega)]
      · rcases hdec : duk__wtf8_sanitize_decode t p with ⟨ocp, rest⟩
        have hrl : rest.length ≤ p.length := by
          have hx := duk__wtf8_sanitize_decode_length t p
          rw [hdec] at hx
          exact hx
        cases ocp with
        | none =>
          rw [san_repl t p rest h80 hdec]
          rw [coal_3b_notpair 0xef 0xbf 0xbd _ (by norm_num) (by norm_num)
            (by rintro ⟨-, hted, -⟩; exact absurd hted (by norm_num))]
          rw [ih rest (by omega)]
        | some cp =>
          by_cases hs : 0xd800 ≤ cp ∧ cp < 0xdc00 ∧ duk__wtf8_pair_check rest = true
          · rw [san_pair t cp p rest h80 hdec hs]
            have hb2 : 0x10000 ≤ 0x10000 + ((cp &&& 0x3ff) <<< 10) +
                (((rest.getD 1 0) &&& 0x0f) <<< 6) + ((rest.getD 2 0) &&& 0x3f) ∧
                0x10000 + ((cp &&& 0x3ff) <<< 10) +
                (((rest.getD 1 0) &&& 0x0f) <<< 6) + ((rest.getD 2 0) &&& 0x3f) ≤ 0x10ffff := by
              rw [nat_and_1023, nat_and_15, nat_and_63, nat_shl_10, nat_shl_6]
              omega
            unfold duk__wtf8_sanitize_emit
            rw [if_neg (by omega), if_neg (by omega)]
            simp only [List.cons_append, List.nil_append]
            rw [coal_4b _ _ _ _ _ (by rw [nat_shr_18]; omega) (by rw [nat_shr_18]; omega)]
            rw [ih (rest.drop 3) (by simp only [List.length_drop]; omega)]
          · rw [san_emit t cp p rest h80 hdec hs]
            have hbnd := decode_some_bounds t cp p rest hdec
            unfold duk__wtf8_sanitize_emit
            by_cases hc : cp ≤ 0x7ff
            · rw [if_pos hc]
              simp only [List.cons_append, List.nil_append]
              rw [coal_2b _ _ _ (by rw [nat_shr_6]; omega) (by rw [nat_shr_6]; omega)]
              rw [ih rest (by omega)]
            by_cases hc2 : cp ≤ 0xffff
            · rw [if_neg hc, if_pos hc2]
              simp only [List.cons_append, List.nil_append]
              rw [coal_3b_notpair _ _ _ _ (by rw [nat_shr_12]; omega) (by rw [nat_shr_12]; omega)
                (by
                  rintro ⟨h5, hted, hd, hb1, hb1b, -, -, he1, he2, hf1, hf2⟩
                  -- the emitted 3-byte sequence would be a high surrogate
                  have hgb : ((0x80 + ((cp >>> 6) &&& 0x3f)) :: (0x80 + (cp &&& 0x3f)) ::
                      (duk__unicode_wtf8_sanitize_string_reference rest).1).getD 0 0 =
                      0x80 + ((cp >>> 6) &&& 0x3f) := rfl
                  rw [hgb] at hb1 hb1b
                  rw [nat_shr_12] at hted
                  rw [nat_shr_6, nat_and_63] at hb1 hb1b
                  have hcps : 0xd800 ≤ cp ∧ cp < 0xdc00 := by omega
                  have hpc : duk__wtf8_pair_check rest ≠ true := fun hx =>
                    hs ⟨hcps.1, hcps.2, hx⟩
                  apply hpc
                  apply san_pair_check
                  rw [pair_check_iff]
                  have g2 : ((0x80 + ((cp >>> 6) &&& 0x3f)) :: (0x80 + (cp &&& 0x3f)) ::
                      (duk__unicode_wtf8_sanitize_string_reference rest).1).getD 2 0 =
                      (duk__unicode_wtf8_sanitize_string_reference rest).1.getD 0 0 := rfl
                  have g3 : ((0x80 + ((cp >>> 6) &&& 0x3f)) :: (0x80 + (cp &&& 0x3f)) ::
                      (duk__unicode_wtf8_sanitize_string_reference rest).1).getD 3 0 =
                      (duk__unicode_wtf8_sanitize_string_reference rest).1.getD 1 0 := rfl
                  have g4 : ((0x80 + ((cp >>> 6) &&& 0x3f)) :: (0x80 + (cp &&& 0x3f)) ::
                      (duk__unicode_wtf8_sanitize_string_reference rest).1).getD 4 0 =
                      (duk__unicode_wtf8_sanitize_string_reference rest).1.getD 2 0 := rfl
                  rw [g2] at hd
                  rw [g3] at he1 he2
                  rw [g4] at hf1 hf2
                  simp only [List.length_cons] at h5
                  exact ⟨by omega, hd, he1, he2, hf1, hf2⟩)]
              rw [ih rest (by omega)]
            · rw [if_neg hc, if_neg hc2]
              simp only [List.cons_append, List.nil_append]
              rw [coal_4b _ _ _ _ _ (by rw [nat_shr_18]; omega) (by rw [nat_shr_18]; omega)]
              rw [ih rest (by omega)]

/-! ## Claim theorems -/

/-- C1: On a valid WTF-8 input, `sanitize_string` returns the input
bytes unchanged except that every adjacent pair of a 3-byte-encoded high
surrogate followed by a 3-byte-encoded low surrogate is coalesced into
the single 4-byte encoding of `0x10000 + (hi-0xD800)*0x400 + (lo-0xDC00)`,
lone surrogates being kept; in particular
`sanitize_string(ED A0 BD ED B8 80) = F0 9F 98 80`. -/
theorem claim_C1_sanitize_coalesces :
    (∀ l : List Nat, duk_unicode_is_valid_wtf8 l = true →
      (duk_unicode_wtf8_sanitize_string l).1 = wtf8CoalescePairsSpec l) ∧
    (duk_unicode_wtf8_sanitize_string [0xed, 0xa0, 0xbd, 0xed, 0xb8, 0x80]).1 =
      [0xf0, 0x9f, 0x98, 0x80] := by
  constructor
  · intro l h
    unfold duk_unicode_wtf8_sanitize_string
    exact san_coalesce_aux l.length l (Nat.le_refl _) h
  · simp [duk_unicode_wtf8_sanitize_string, duk__unicode_wtf8_sanitize_string_reference,
      duk__wtf8_sanitize_decode, duk__wtf8_decode_cont, duk__wtf8_sanitize_emit,
      duk__wtf8_pair_check, nat_and_7, nat_and_15, nat_and_31, nat_and_63, nat_and_1023,
      nat_shl_6, nat_shl_10, nat_shl_12, nat_shr_6, nat_shr_10, nat_shr_12, nat_shr_18]

/-- Witness for C1 at a concrete valid input containing a surrogate pair. -/
theorem claim_C1_sanitize_coalesces_witness :
    duk_unicode_is_valid_wtf8 [0x41, 0xed, 0xa0, 0xbd, 0xed, 0xb8, 0x80] = true ∧
    (duk_unicode_wtf8_sanitize_string [0x41, 0xed, 0xa0, 0xbd, 0xed, 0xb8, 0x80]).1 =
      wtf8CoalescePairsSpec [0x41, 0xed, 0xa0, 0xbd, 0xed, 0xb8, 0x80] :=
  ⟨by simp [duk_unicode_is_valid_wtf8],
    claim_C1_sanitize_coalesces.1 _ (by simp [duk_unicode_is_valid_wtf8])⟩

/-- C2: every invalid byte sequence is replaced by exactly one U+FFFD
(bytes EF BF BD), for each kind of invalidity: an invalid lead byte
(0x80-0xC1 or 0xF5-0xFF) consumes one byte; an out-of-range continuation
byte at any position of a 2-, 3- or 4-byte sequence - including the
overlong guards (E0 followed by 80-9F, F0 followed by 80-8F) and the
above-U+10FFFF guard (F4 followed by 90 or more) - is NOT consumed and
is re-examined as the next lead byte; a sequence truncated by the end of
the input consumes the remaining bytes of that sequence; in particular
`sanitize_string(41 C3 28) = 41 EF BF BD 28`. -/
theorem claim_C2_replacement :
    -- (1) invalid lead byte 0x80-0xC1 (continuation as lead, or overlong C0/C1)
    (∀ t : Nat, ∀ rest : List Nat, 0x80 ≤ t → t ≤ 0xc1 →
      duk_unicode_wtf8_sanitize_string (t :: rest) =
        (0xef :: 0xbf :: 0xbd :: (duk_unicode_wtf8_sanitize_string rest).1,
          (duk_unicode_wtf8_sanitize_string rest).2 + 2)) ∧
    -- (2) invalid lead byte 0xF5-0xFF
    (∀ t : Nat, ∀ rest : List Nat, 0xf5 ≤ t → t ≤ 0xff →
      duk_unicode_wtf8_sanitize_string (t :: rest) =
        (0xef :: 0xbf :: 0xbd :: (duk_unicode_wtf8_sanitize_string rest).1,
          (duk_unicode_wtf8_sanitize_string rest).2 + 2)) ∧
    -- (3) 2-byte lead, continuation byte outside 0x80-0xBF: not consumed
    (∀ t c : Nat, ∀ rest : List Nat, 0xc2 ≤ t → t ≤ 0xdf → ¬(0x80 ≤ c ∧ c ≤ 0xbf) →
      duk_unicode_wtf8_sanitize_string (t :: c :: rest) =
        (0xef :: 0xbf :: 0xbd :: (duk_unicode_wtf8_sanitize_string (c :: rest)).1,
          (duk_unicode_wtf8_sanitize_string (c :: rest)).2 + 2)) ∧
    -- (4) 3-byte lead, first continuation outside 0x80-0xBF: not consumed
    (∀ t c : Nat, ∀ rest : List Nat, 0xe0 ≤ t → t ≤ 0xef → ¬(0x80 ≤ c ∧ c ≤ 0xbf) →
      duk_unicode_wtf8_sanitize_string (t :: c :: rest) =
        (0xef :: 0xbf :: 0xbd :: (duk_unicode_wtf8_sanitize_string (c :: rest)).1,
          (duk_unicode_wtf8_sanitize_string (c :: rest)).2 + 2)) ∧
    -- (5) overlong encoding: lead E0 with first continuation 0x80-0x9F: not consumed
    (∀ c : Nat, ∀ rest : List Nat, 0x80 ≤ c → c ≤ 0x9f →
      duk_unicode_wtf8_sanitize_string (0xe0 :: c :: rest) =
        (0xef :: 0xbf :: 0xbd :: (duk_unicode_wtf8_sanitize_string (c :: rest)).1,
          (duk_unicode_wtf8_sanitize_string (c :: rest)).2 + 2)) ∧
    -- (6) 3-byte lead, valid first continuation, invalid second: not consumed
    (∀ t c1 c2 : Nat, ∀ rest : List Nat, 0xe0 ≤ t → t ≤ 0xef →
      0x80 ≤ c1 → c1 ≤ 0xbf → (t = 0xe0 → 0xa0 ≤ c1) → ¬(0x80 ≤ c2 ∧ c2 ≤ 0xbf) →
      duk_unicode_wtf8_sanitize_string (t :: c1 :: c2 :: rest) =
        (0xef :: 0xbf :: 0xbd :: (duk_unicode_wtf8_sanitize_string (c2 :: rest)).1,
          (duk_unicode_wtf8_sanitize_string (c2 :: rest)).2 + 2)) ∧
    -- (7) 4-byte lead, first continuation outside 0x80-0xBF: not consumed
    (∀ t c : Nat, ∀ rest : List Nat, 0xf0 ≤ t → t ≤ 0xf4 → ¬(0x80 ≤ c ∧ c ≤ 0xbf) →
      duk_unicode_wtf8_sanitize_string (t :: c :: rest) =
        (0xef :: 0xbf :: 0xbd :: (duk_unicode_wtf8_sanitize_string (c :: rest)).1,
          (duk_unicode_wtf8_sanitize_string (c :: rest)).2 + 2)) ∧
    -- (8) overlong encoding: lead F0 with first continuation 0x80-0x8F: not consumed
    (∀ c : Nat, ∀ rest : List Nat, 0x80 ≤ c → c ≤ 0x8f →
      duk_unicode_wtf8_sanitize_string (0xf0 :: c :: rest) =
        (0xef :: 0xbf :: 0xbd :: (duk_unicode_wtf8_sanitize_string (c :: rest)).1,
          (duk_unicode_wtf8_sanitize_string (c :: rest)).2 + 2)) ∧
    -- (9) out-of-range codepoint: lead F4 with first continuation 0x90 or more
    (∀ c : Nat, ∀ rest : List Nat, 0x90 ≤ c →
      duk_unicode_wtf8_sanitize_string (0xf4 :: c :: rest) =
        (0xef :: 0xbf :: 0xbd :: (duk_unicode_wtf8_sanitize_string (c :: rest)).1,
          (duk_unicode_wtf8_sanitize_string (c :: rest)).2 + 2)) ∧
    -- (10) 4-byte lead, valid first continuation, invalid second: not consumed
    (∀ t c1 c2 : Nat, ∀ rest : List Nat, 0xf0 ≤ t → t ≤ 0xf4 →
      0x80 ≤ c1 → c1 ≤ 0xbf → (t = 0xf0 → 0x90 ≤ c1) → (t = 0xf4 → c1 ≤ 0x8f) →
      ¬(0x80 ≤ c2 ∧ c2 ≤ 0xbf) →
      duk_unicode_wtf8_sanitize_string (t :: c1 :: c2 :: rest) =
        (0xef :: 0xbf :: 0xbd :: (duk_unicode_wtf8_sanitize_string (c2 :: rest)).1,
          (duk_unicode_wtf8_sanitize_string (c2 :: rest)).2 + 2)) ∧
    -- (11) 4-byte lead, valid first two continuations, invalid third: not consumed
    (∀ t c1 c2 c3 : Nat, ∀ rest : List Nat, 0xf0 ≤ t → t ≤ 0xf4 →
      0x80 ≤ c1 → c1 ≤ 0xbf → (t = 0xf0 → 0x90 ≤ c1) → (t = 0xf4 → c1 ≤ 0x8f) →
      0x80 ≤ c2 → c2 ≤ 0xbf → ¬(0x80 ≤ c3 ∧ c3 ≤ 0xbf) →
      duk_unicode_wtf8_sanitize_string (t :: c1 :: c2 :: c3 :: rest) =
        (0xef :: 0xbf :: 0xbd :: (duk_unicode_wtf8_sanitize_string (c3 :: rest)).1,
          (duk_unicode_wtf8_sanitize_string (c3 :: rest)).2 + 2)) ∧
    -- (12) truncation: bare multi-byte lead at end of input
    (∀ t : Nat, 0xc2 ≤ t → t ≤ 0xf4 →
      duk_unicode_wtf8_sanitize_string [t] = ([0xef, 0xbf, 0xbd], 2)) ∧
    -- (13) truncation: 3-byte lead and one valid continuation at end of input
    (∀ t c1 : Nat, 0xe0 ≤ t → t ≤ 0xef →
      0x80 ≤ c1 → c1 ≤ 0xbf → (t = 0xe0 → 0xa0 ≤ c1) →
      duk_unicode_wtf8_sanitize_string [t, c1] = ([0xef, 0xbf, 0xbd], 2)) ∧
    -- (14) truncation: 4-byte lead and one valid continuation at end of input
    (∀ t c1 : Nat, 0xf0 ≤ t → t ≤ 0xf4 →
      0x80 ≤ c1 → c1 ≤ 0xbf → (t = 0xf0 → 0x90 ≤ c1) → (t = 0xf4 → c1 ≤ 0x8f) →
      duk_unicode_wtf8_sanitize_string [t, c1] = ([0xef, 0xbf, 0xbd], 2)) ∧
    -- (15) truncation: 4-byte lead and two valid continuations at end of input
    (∀ t c1 c2 : Nat, 0xf0 ≤ t → t ≤ 0xf4 →
      0x80 ≤ c1 → c1 ≤ 0xbf → (t = 0xf0 → 0x90 ≤ c1) → (t = 0xf4 → c1 ≤ 0x8f) →
      0x80 ≤ c2 → c2 ≤ 0xbf →
      duk_unicode_wtf8_sanitize_string [t, c1, c2] = ([0xef, 0xbf, 0xbd], 2)) ∧
    -- (16) concrete example from the claim
    duk_unicode_wtf8_sanitize_string [0x41, 0xc3, 0x28] =
      ([0x41, 0xef, 0xbf, 0xbd, 0x28], 2) := by
  refine ⟨?_, ?_, ?_, ?_, ?_, ?_, ?_, ?_, ?_, ?_, ?_, ?_, ?_, ?_, ?_, ?_⟩
  · intro t rest h1 h2
    unfold duk_unicode_wtf8_sanitize_string
    rw [san_repl t rest rest (by omega) (by
      unfold duk__wtf8_sanitize_decode
      rw [if_neg (by omega)])]
  · intro t rest h1 h2
    unfold duk_unicode_wtf8_sanitize_string
    rw [san_repl t rest rest (by omega) (by
      unfold duk__wtf8_sanitize_decode
      rw [if_pos (by omega), if_neg (by omega), if_neg (by omega), if_neg (by omega)])]
  · intro t c rest h1 h2 h3
    unfold duk_unicode_wtf8_sanitize_string
    rw [san_repl t (c :: rest) (c :: rest) (by omega) (by
      unfold duk__wtf8_sanitize_decode
      rw [if_pos (by omega), if_pos h2, cont_one_cons, if_neg h3])]
  · intro t c rest h1 h2 h3
    unfold duk_unicode_wtf8_sanitize_string
    rw [san_repl t (c :: rest) (c :: rest) (by omega) (by
      unfold duk__wtf8_sanitize_decode
      rw [if_pos (by omega), if_neg (by omega), if_pos h2, cont_step_two,
        if_neg (by
          rintro ⟨ha, hb⟩
          refine h3 ⟨Nat.le_trans ?_ ha, hb⟩
          split <;> omega)])]
  · intro c rest h1 h2
    unfold duk_unicode_wtf8_sanitize_string
    rw [san_repl 0xe0 (c :: rest) (c :: rest) (by omega) (by
      unfold duk__wtf8_sanitize_decode
      rw [if_pos (by omega), if_neg (by omega), if_pos (by omega), cont_step_two,
        if_neg (by
          rw [if_pos (show (0xe0 : Nat) = 0xe0 from rfl)]
          omega)])]
  · intro t c1 c2 rest h1 h2 h3 h4 h5 h6
    have hlo : (if t = 0xe0 then 0xa0 else 0x80) ≤ c1 := by
      split
      · rename_i he; exact h5 he
      · exact h3
    unfold duk_unicode_wtf8_sanitize_string
    rw [san_repl t (c1 :: c2 :: rest) (c2 :: rest) (by omega) (by
      unfold duk__wtf8_sanitize_decode
      rw [if_pos (by omega), if_neg (by omega), if_pos h2, cont_step_two,
        if_pos ⟨hlo, h4⟩, cont_one_cons, if_neg h6])]
  · intro t c rest h1 h2 h3
    unfold duk_unicode_wtf8_sanitize_string
    rw [san_repl t (c :: rest) (c :: rest) (by omega) (by
      unfold duk__wtf8_sanitize_decode
      rw [if_pos (by omega), if_neg (by omega), if_neg (by omega), if_pos h2,
        cont_step_three,
        if_neg (by
          rintro ⟨ha, hb⟩
          refine h3 ⟨Nat.le_trans ?_ ha, Nat.le_trans hb ?_⟩
          · split <;> omega
          · split <;> omega)])]
  · intro c rest h1 h2
    unfold duk_unicode_wtf8_sanitize_string
    rw [san_repl 0xf0 (c :: rest) (c :: rest) (by omega) (by
      unfold duk__wtf8_sanitize_decode
      rw [if_pos (by omega), if_neg (by omega), if_neg (by omega), if_pos (by omega),
        cont_step_three,
        if_neg (by
          rw [if_pos (show (0xf0 : Nat) = 0xf0 from rfl),
            if_neg (by omega : ¬((0xf0 : Nat) = 0xf4))]
          omega)])]
  · intro c rest h1
    unfold duk_unicode_wtf8_sanitize_string
    rw [san_repl 0xf4 (c :: rest) (c :: rest) (by omega) (by
      unfold duk__wtf8_sanitize_decode
      rw [if_pos (by omega), if_neg (by omega), if_neg (by omega), if_pos (by omega),
        cont_step_three,
        if_neg (by
          rw [if_neg (by omega : ¬((0xf4 : Nat) = 0xf0)),
            if_pos (show (0xf4 : Nat) = 0xf4 from rfl)]
          omega)])]
  · intro t c1 c2 rest h1 h2 h3 h4 h5 h6 h7
    have hlo : (if t = 0xf0 then 0x90 else 0x80) ≤ c1 := by
      split
      · rename_i he; exact h5 he
      · exact h3
    have hup : c1 ≤ (if t = 0xf4 then 0x8f else 0xbf) := by
      split
      · rename_i he; exact h6 he
      · exact h4
    unfold duk_unicode_wtf8_sanitize_string
    rw [san_repl t (c1 :: c2 :: rest) (c2 :: rest) (by omega) (by
      unfold duk__wtf8_sanitize_decode
      rw [if_pos (by omega), if_neg (by omega), if_neg (by omega), if_pos h2,
        cont_step_three, if_pos ⟨hlo, hup⟩, cont_step_two, if_neg h7])]
  · intro t c1 c2 c3 rest h1 h2 h3 h4 h5 h6 h7 h8 h9
    have hlo : (if t = 0xf0 then 0x90 else 0x80) ≤ c1 := by
      split
      · rename_i he; exact h5 he
      · exact h3
    have hup : c1 ≤ (if t = 0xf4 then 0x8f else 0xbf) := by
      split
      · rename_i he; exact h6 he
      · exact h4
    unfold duk_unicode_wtf8_sanitize_string
    rw [san_repl t (c1 :: c2 :: c3 :: rest) (c3 :: rest) (by omega) (by
      unfold duk__wtf8_sanitize_decode
      rw [if_pos (by omega), if_neg (by omega), if_neg (by omega), if_pos h2,
        cont_step_three, if_pos ⟨hlo, hup⟩, cont_step_two, if_pos ⟨h7, h8⟩,
        cont_one_cons, if_neg h9])]
  · intro t h1 h2
    unfold duk_unicode_wtf8_sanitize_string
    rw [san_repl t [] [] (by omega) (by
      unfold duk__wtf8_sanitize_decode
      by_cases hdf : t ≤ 0xdf
      · rw [if_pos (by omega), if_pos hdf, cont_one_nil]
      · by_cases hef : t ≤ 0xef
        · rw [if_pos (by omega), if_neg hdf, if_pos hef, cont_two_nil]
        · rw [if_pos (by omega), if_neg hdf, if_neg hef, if_pos (by omega), cont_three_nil])]
    rw [san_nil]
  · intro t c1 h1 h2 h3 h4 h5
    have hlo : (if t = 0xe0 then 0xa0 else 0x80) ≤ c1 := by
      split
      · rename_i he; exact h5 he
      · exact h3
    unfold duk_unicode_wtf8_sanitize_string
    rw [san_repl t [c1] [] (by omega) (by
      unfold duk__wtf8_sanitize_decode
      rw [if_pos (by omega), if_neg (by omega), if_pos h2, cont_step_two,
        if_pos ⟨hlo, h4⟩, cont_one_nil])]
    rw [san_nil]
  · intro t c1 h1 h2 h3 h4 h5 h6
    have hlo : (if t = 0xf0 then 0x90 else 0x80) ≤ c1 := by
      split
      · rename_i he; exact h5 he
      · exact h3
    have hup : c1 ≤ (if t = 0xf4 then 0x8f else 0xbf) := by
      split
      · rename_i he; exact h6 he
      · exact h4
    unfold duk_unicode_wtf8_sanitize_string
    rw [san_repl t [c1] [] (by omega) (by
      unfold duk__wtf8_sanitize_decode
      rw [if_pos (by omega), if_neg (by omega), if_neg (by omega), if_pos h2,
        cont_step_three, if_pos ⟨hlo, hup⟩, cont_two_nil])]
    rw [san_nil]
  · intro t c1 c2 h1 h2 h3 h4 h5 h6 h7 h8
    have hlo : (if t = 0xf0 then 0x90 else 0x80) ≤ c1 := by
      split
      · rename_i he; exact h5 he
      · exact h3
    have hup : c1 ≤ (if t = 0xf4 then 0x8f else 0xbf) := by
      split
      · rename_i he; exact h6 he
      · exact h4
    unfold duk_unicode_wtf8_sanitize_string
    rw [san_repl t [c1, c2] [] (by omega) (by
      unfold duk__wtf8_sanitize_decode
      rw [if_pos (by omega), if_neg (by omega), if_neg (by omega), if_pos h2,
        cont_step_three, if_pos ⟨hlo, hup⟩, cont_step_two, if_pos ⟨h7, h8⟩,
        cont_one_nil])]
    rw [san_nil]
  · simp [duk_unicode_wtf8_sanitize_string, duk__unicode_wtf8_sanitize_string_reference,
      duk__wtf8_sanitize_decode, duk__wtf8_decode_cont, duk__wtf8_sanitize_emit,
      duk__wtf8_pair_check, nat_and_7, nat_and_15, nat_and_31, nat_and_63, nat_and_1023,
      nat_shl_6, nat_shl_10, nat_shl_12, nat_shr_6, nat_shr_10, nat_shr_12, nat_shr_18]

/-- Witness for C2: the replacement rules applied at concrete inputs
(invalid lead, 2-byte continuation failure, E0 overlong, F4 out-of-range,
bare-lead truncation, and the partial truncations E0 A0 and F0 90 80). -/
theorem claim_C2_replacement_witness :
    duk_unicode_wtf8_sanitize_string [0x80] = ([0xef, 0xbf, 0xbd], 2) ∧
    duk_unicode_wtf8_sanitize_string [0xc3, 0x28] =
      (0xef :: 0xbf :: 0xbd :: (duk_unicode_wtf8_sanitize_string [0x28]).1,
        (duk_unicode_wtf8_sanitize_string [0x28]).2 + 2) ∧
    duk_unicode_wtf8_sanitize_string [0xe0, 0x80] =
      (0xef :: 0xbf :: 0xbd :: (duk_unicode_wtf8_sanitize_string [0x80]).1,
        (duk_unicode_wtf8_sanitize_string [0x80]).2 + 2) ∧
    duk_unicode_wtf8_sanitize_string [0xf4, 0x90, 0x41] =
      (0xef :: 0xbf :: 0xbd :: (duk_unicode_wtf8_sanitize_string [0x90, 0x41]).1,
        (duk_unicode_wtf8_sanitize_string [0x90, 0x41]).2 + 2) ∧
    duk_unicode_wtf8_sanitize_string [0xe1] = ([0xef, 0xbf, 0xbd], 2) ∧
    duk_unicode_wtf8_sanitize_string [0xe0, 0xa0] = ([0xef, 0xbf, 0xbd], 2) ∧
    duk_unicode_wtf8_sanitize_string [0xf0, 0x90, 0x80] = ([0xef, 0xbf, 0xbd], 2) := by
  obtain ⟨h1, h2, h3, h4, h5, h6, h7, h8, h9, h10, h11, h12, h13, h14, h15, h16⟩ :=
    claim_C2_replacement
  refine ⟨?_, ?_, ?_, ?_, ?_, ?_, ?_⟩
  · have h := h1 0x80 [] (by omega) (by omega)
    rw [h]
    rw [show duk_unicode_wtf8_sanitize_string [] = ([], 0) from san_nil]
  · exact h3 0xc3 0x28 [] (by omega) (by omega) (by omega)
  · exact h5 0x80 [] (by omega) (by omega)
  · exact h9 0x90 [0x41] (by omega)
  · exact h12 0xe1 (by omega) (by omega)
  · exact h13 0xe0 0xa0 (by omega) (by omega) (by omega) (by omega) (by omega)
  · exact h15 0xf0 0x90 0x80 (by omega) (by omega) (by omega) (by omega) (by omega)
      (by omega) (by omega) (by omega)

/-- C3: for every input byte slice the sanitizer's output passes the
WTF-8 validator (no bad leads, truncations, overlongs or out-of-range
codepoints; 3-byte-encoded surrogates permitted). -/
theorem claim_C3_output_valid (l : List Nat) :
    duk_unicode_is_valid_wtf8 (duk_unicode_wtf8_sanitize_string l).1 = true := by
  unfold duk_unicode_wtf8_sanitize_string
  exact san_valid_aux l.length l (Nat.le_refl _)

/-- C4: the sanitizer's returned character length is
`out_blen - out_clen_sub` where `out_clen_sub` equals the sum over
emitted codepoints of their extra bytes (2-byte scalars 1, 3-byte
scalars 2 - U+FFFD replacements included -, 4-byte scalars 3), the sum
being recomputable from the output bytes alone. -/
theorem claim_C4_output_clen (l : List Nat) :
    (duk_unicode_wtf8_sanitize_string l).2 =
      wtf8ClenSubOf (duk_unicode_wtf8_sanitize_string l).1 := by
  unfold duk_unicode_wtf8_sanitize_string
  exact san_clensub_aux l.length l (Nat.le_refl _)

/-- C6: on valid WTF-8, `charlength` counts 1 character for each 1-, 2-
or 3-byte sequence and 2 for each 4-byte sequence; and for every input,
`charlength(sanitize(b))` equals the sum over the decoded scalars of the
output of 1 for BMP scalars and 2 for supplementary scalars. -/
theorem claim_C6_charlength :
    (∀ l : List Nat, duk_unicode_is_valid_wtf8 l = true →
      duk_unicode_wtf8_charlength l = wtf8CharCountSpec l) ∧
    (∀ b : List Nat,
      duk_unicode_wtf8_charlength (duk_unicode_wtf8_sanitize_string b).1 =
        ((wtf8DecodeAll (duk_unicode_wtf8_sanitize_string b).1).map
          fun cp => if cp < 0x10000 then 1 else 2).sum) := by
  have key : ∀ l : List Nat, duk_unicode_is_valid_wtf8 l = true →
      duk_unicode_wtf8_charlength l = wtf8CharCountSpec l ∧
      ((wtf8DecodeAll l).map fun cp => if cp < 0x10000 then 1 else 2).sum =
        wtf8CharCountSpec l := by
    intro l h
    obtain ⟨hA, hB⟩ := charlen_count_aux l.length l (Nat.le_refl _) h
    unfold duk_unicode_wtf8_charlength
    exact ⟨by omega, hB⟩
  constructor
  · intro l h
    exact (key l h).1
  · intro b
    have hv : duk_unicode_is_valid_wtf8 (duk_unicode_wtf8_sanitize_string b).1 = true := by
      unfold duk_unicode_wtf8_sanitize_string
      exact san_valid_aux b.length b (Nat.le_refl _)
    obtain ⟨h1, h2⟩ := key _ hv
    rw [h1, h2]

/-- Witness for C6 at a concrete valid input (`A`, `é`, `😀`). -/
theorem claim_C6_charlength_witness :
    duk_unicode_is_valid_wtf8 [0x41, 0xc3, 0xa9, 0xf0, 0x9f, 0x98, 0x80] = true ∧
    duk_unicode_wtf8_charlength [0x41, 0xc3, 0xa9, 0xf0, 0x9f, 0x98, 0x80] =
      wtf8CharCountSpec [0x41, 0xc3, 0xa9, 0xf0, 0x9f, 0x98, 0x80] :=
  ⟨by simp [duk_unicode_is_valid_wtf8],
    claim_C6_charlength.1 _ (by simp [duk_unicode_is_valid_wtf8])⟩

/-- C7: the sanitizer is idempotent, as output bytes and as returned
length data. -/
theorem claim_C7_idempotent (b : List Nat) :
    duk_unicode_wtf8_sanitize_string ((duk_unicode_wtf8_sanitize_string b).1) =
      duk_unicode_wtf8_sanitize_string b := by
  unfold duk_unicode_wtf8_sanitize_string
  have hv : duk_unicode_is_valid_wtf8
      (duk__unicode_wtf8_sanitize_string_reference b).1 = true :=
    san_valid_aux b.length b (Nat.le_refl _)
  have h1 : (duk__unicode_wtf8_sanitize_string_reference
      (duk__unicode_wtf8_sanitize_string_reference b).1).1 =
      (duk__unicode_wtf8_sanitize_string_reference b).1 := by
    rw [san_coalesce_aux (duk__unicode_wtf8_sanitize_string_reference b).1.length _
      (Nat.le_refl _) hv]
    exact san_nopair_aux b.length b (Nat.le_refl _)
  have h2 : (duk__unicode_wtf8_sanitize_string_reference
      (duk__unicode_wtf8_sanitize_string_reference b).1).2 =
      (duk__unicode_wtf8_sanitize_string_reference b).2 := by
    rw [san_clensub_aux (duk__unicode_wtf8_sanitize_string_reference b).1.length _
      (Nat.le_refl _)]
    rw [h1]
    rw [← san_clensub_aux b.length b (Nat.le_refl _)]
  exact Prod.ext h1 h2

/-- C9: a non-empty input whose first byte is a reserved symbol marker
(0x80, 0x81, 0x82 or 0xFF) is classified as a symbol and copied to the
output verbatim; every other input, the empty input included, is
classified as a string and handed to the WTF-8 string sanitizer. -/
theorem claim_C9_detect :
    (∀ hd : Nat, ∀ rest : List Nat, (hd = 0x80 ∨ hd = 0x81 ∨ hd = 0x82 ∨ hd = 0xff) →
      duk__wtf8_symbol_check (hd :: rest) = true ∧
      duk_unicode_wtf8_sanitize_detect (hd :: rest) = hd :: rest ∧
      (duk_unicode_wtf8_sanitize_detect (hd :: rest)).length = (hd :: rest).length) ∧
    (duk__wtf8_symbol_check [] = false ∧
      duk_unicode_wtf8_sanitize_detect [] = (duk_unicode_wtf8_sanitize_string []).1) ∧
    (∀ hd : Nat, ∀ rest : List Nat, ¬(hd = 0x80 ∨ hd = 0x81 ∨ hd = 0x82 ∨ hd = 0xff) →
      duk__wtf8_symbol_check (hd :: rest) = false ∧
      duk_unicode_wtf8_sanitize_detect (hd :: rest) =
        (duk_unicode_wtf8_sanitize_string (hd :: rest)).1) := by
  refine ⟨?_, ⟨rfl, rfl⟩, ?_⟩
  · intro hd rest hm
    have hchk : duk__wtf8_symbol_check (hd :: rest) = true := by
      simp only [duk__wtf8_symbol_check]
      rcases hm with rfl | rfl | rfl | rfl <;> norm_num
    refine ⟨hchk, ?_, ?_⟩
    · unfold duk_unicode_wtf8_sanitize_detect
      rw [if_pos hchk]
      rfl
    · unfold duk_unicode_wtf8_sanitize_detect
      rw [if_pos hchk]
      rfl
  · intro hd rest hm
    have hchk : duk__wtf8_symbol_check (hd :: rest) = false := by
      simp only [duk__wtf8_symbol_check]
      by_cases h7 : hd ≤ 0x7f
      · rw [if_pos h7]
      · rw [if_neg h7]
        simp only [Bool.or_eq_false_iff, decide_eq_false_iff_not]
        push_neg at hm
        exact ⟨⟨⟨by omega, by omega⟩, by omega⟩, by omega⟩
    refine ⟨hchk, ?_⟩
    unfold duk_unicode_wtf8_sanitize_detect
    rw [if_neg (by rw [hchk]; exact Bool.false_ne_true)]

/-- Witness for C9 at concrete inputs: a symbol (first byte 0xFF) and a
plain string. -/
theorem claim_C9_detect_witness :
    duk_unicode_wtf8_sanitize_detect [0xff, 0x41, 0xfe] = [0xff, 0x41, 0xfe] ∧
    duk_unicode_wtf8_sanitize_detect [0x41, 0x42] =
      (duk_unicode_wtf8_sanitize_string [0x41, 0x42]).1 :=
  ⟨(claim_C9_detect.1 0xff [0x41, 0xfe] (by norm_num)).2.1,
    (claim_C9_detect.2.2 0x41 [0x42] (by norm_num)).2⟩

/-- C10: a READ_ONLY handle with the lazy `clen` sentinel 0 is never
written: in the stored-`clen` configuration `duk_hstring_get_charlen`
returns 0 with the handle bit-identical (0 being the precomputed
character length of any ROM string stored with `clen = 0`), and in the
configuration without a stored `clen` the slow path computes and returns
the WTF-8 character length of the data while leaving the handle
unchanged. -/
theorem claim_C10_readonly_charlen :
    (∀ h : DukHstring, h.readonly = true → h.clen = 0 →
      duk_hstring_get_charlen h = (0, h) ∧
      (duk_unicode_wtf8_charlength h.data = 0 →
        (duk_hstring_get_charlen h).1 = duk_unicode_wtf8_charlength h.data)) ∧
    (∀ h : DukHstring, h.readonly = true → h.ascii = false → h.symbol = false →
      duk__hstring_get_charlen_slowpath_noclen h =
        (duk_unicode_wtf8_charlength h.data, h)) := by
  constructor
  · intro h hro hclen
    have hmain : duk_hstring_get_charlen h = (0, h) := by
      unfold duk_hstring_get_charlen duk__hstring_get_charlen_slowpath
      rw [if_neg (by simp [hclen]), if_pos hro]
    exact ⟨hmain, fun hz => by rw [hmain, hz]⟩
  · intro h hro hascii hsym
    unfold duk__hstring_get_charlen_slowpath_noclen
    rw [if_neg (by simp [hascii]), if_neg (by simp [hsym]), if_pos hro]

/-- Witness for C10: an empty read-only handle and a read-only handle
holding the two-byte encoding of U+00E9. -/
theorem claim_C10_readonly_charlen_witness :
    duk_hstring_get_charlen (DukHstring.mk [] 0 false false true) =
      (0, DukHstring.mk [] 0 false false true) ∧
    duk__hstring_get_charlen_slowpath_noclen (DukHstring.mk [0xc3, 0xa9] 0 false false true) =
      (duk_unicode_wtf8_charlength [0xc3, 0xa9], DukHstring.mk [0xc3, 0xa9] 0 false false true) :=
  ⟨(claim_C10_readonly_charlen.1 (DukHstring.mk [] 0 false false true) rfl rfl).1,
    claim_C10_readonly_charlen.2 (DukHstring.mk [0xc3, 0xa9] 0 false false true) rfl rfl rfl⟩

/-! ## Helper lemmas: substring extraction -/

/-- The three bytes the substring extractor writes for a manufactured
surrogate are the WTF-8 encoding of that surrogate. -/
theorem sur3_eq_wtf8Enc (s : Nat) (h1 : 0xd800 ≤ s) (h2 : s ≤ 0xdfff) :
    [0xed, 0x80 + ((s >>> 6) &&& 0x3f), 0x80 + (s &&& 0x3f)] = wtf8Enc s := by
  unfold wtf8Enc
  rw [if_neg (by omega), if_neg (by omega), if_pos (by omega)]
  simp only [nat_shr_6, nat_and_63]
  simp only [List.cons.injEq, and_true]
  omega

/-- On valid WTF-8, character length equal to byte length forces every
byte to be ASCII. -/
theorem valid_full_ascii :
    ∀ n, ∀ l : List Nat, l.length ≤ n → duk_unicode_is_valid_wtf8 l = true →
      duk_unicode_wtf8_charlength l = l.length → ∀ x ∈ l, x ≤ 0x7f := by
  intro n
  induction n with
  | zero =>
    intro l hl _ _ x hx
    have : l = [] := List.eq_nil_of_length_eq_zero (by omega)
    subst this
    simp at hx
  | succ n ih =>
    intro l hl hv hc x hx
    match l with
    | [] => simp at hx
    | t :: p =>
      simp only [List.length_cons] at hl
      unfold duk_unicode_wtf8_charlength at hc
      rcases valid_cons_inv t p hv with
        ⟨h7f, hvp⟩ |
        ⟨ht1, ht2, c1, p1, hp, hc1a, hc1b, hvp⟩ |
        ⟨ht1, ht2, c1, c2, p2, hp, hlo, hhi, hc2a, hc2b, hvp⟩ |
        ⟨ht1, ht2, c1, c2, c3, p3, hp, hlo, hhi, hc2a, hc2b, hc3a, hc3b, hvp⟩
      · rw [adj_ascii t p h7f] at hc
        simp only [List.length_cons] at hc
        rcases List.mem_cons.mp hx with rfl | hxp
        · exact h7f
        · have hadj : duk__wtf8_charlength_adj p = 0 := by omega
          exact ih p (by omega) hvp (by
            unfold duk_unicode_wtf8_charlength
            omega) x hxp
      · exfalso
        subst hp
        rw [adj_2b t c1 p1 (by omega) ht2] at hc
        have := charlen_count_aux p1.length p1 (Nat.le_refl _) hvp
        simp only [List.length_cons] at hc
        omega
      · exfalso
        subst hp
        rw [adj_3b t c1 c2 p2 ht1 ht2] at hc
        have := charlen_count_aux p2.length p2 (Nat.le_refl _) hvp
        simp only [List.length_cons] at hc
        omega
      · exfalso
        subst hp
        rw [adj_4b t c1 c2 c3 p3 ht1] at hc
        have := charlen_count_aux p3.length p3 (Nat.le_refl _) hvp
        simp only [List.length_cons] at hc
        omega

/-- The char-to-byte scan over all-ASCII data advances bytes and
characters in lock step. -/
theorem scan_go_ascii :
    ∀ l : List Nat, (∀ x ∈ l, x ≤ 0x7f) → ∀ charPos byteoff charoff : Nat,
      duk__scan_char2byte_go l charPos byteoff charoff =
        (byteoff + min (charPos - charoff) l.length,
          charoff + min (charPos - charoff) l.length) := by
  intro l
  induction l with
  | nil =>
    intro _ charPos byteoff charoff
    rw [duk__scan_char2byte_go]
    simp
  | cons t rest ihl =>
    intro hasc charPos byteoff charoff
    have ht : t ≤ 0x7f := hasc t (List.mem_cons_self t rest)
    rw [duk__scan_char2byte_go]
    simp only [if_pos ht, if_neg (by omega : ¬ 0xf0 ≤ t)]
    by_cases hstop : charPos < charoff + 1
    · rw [if_pos hstop]
      have : min (charPos - charoff) (t :: rest).length = 0 := by
        simp only [List.length_cons]
        omega
      rw [this]
      simp
    · rw [if_neg hstop]
      have hdrop : rest.drop (1 - 1) = rest := by simp
      rw [hdrop]
      rw [ihl (fun x hx => hasc x (List.mem_cons_of_mem t hx)) charPos (byteoff + 1) (charoff + 1)]
      simp only [List.length_cons, Prod.mk.injEq]
      omega

theorem charlength_nil : duk_unicode_wtf8_charlength [] = 0 := by
  unfold duk_unicode_wtf8_charlength
  rw [adj_nil]
  rfl

/-- On valid data, the char-to-byte scan stops at the start of a
codepoint at or just before the requested character position; a stop
strictly before it happens only at a 4-byte (supplementary) sequence. -/
theorem scan_go_split :
    ∀ n, ∀ l : List Nat, l.length ≤ n → duk_unicode_is_valid_wtf8 l = true →
      ∀ charPos byteoff charoff : Nat, charoff ≤ charPos →
        charPos ≤ charoff + duk_unicode_wtf8_charlength l →
        charoff ≤ (duk__scan_char2byte_go l charPos byteoff charoff).2 ∧
        (duk__scan_char2byte_go l charPos byteoff charoff).2 ≤ charPos ∧
        charPos - (duk__scan_char2byte_go l charPos byteoff charoff).2 ≤ 1 ∧
        ((duk__scan_char2byte_go l charPos byteoff charoff).2 ≠ charPos →
          ∃ m t c1 c2 c3 tail,
            (duk__scan_char2byte_go l charPos byteoff charoff).1 = byteoff + m ∧
            l.drop m = t :: c1 :: c2 :: c3 :: tail ∧
            0xf0 ≤ t ∧ t ≤ 0xf4 ∧
            (if t = 0xf0 then 0x90 else 0x80) ≤ c1 ∧ c1 ≤ (if t = 0xf4 then 0x8f else 0xbf) ∧
            0x80 ≤ c2 ∧ c2 ≤ 0xbf ∧ 0x80 ≤ c3 ∧ c3 ≤ 0xbf) := by
  intro n
  induction n with
  | zero =>
    intro l hl _ charPos byteoff charoff hlo hhi
    have : l = [] := List.eq_nil_of_length_eq_zero (by omega)
    subst this
    rw [duk__scan_char2byte_go]
    rw [charlength_nil] at hhi
    exact ⟨by omega, by omega, by omega, fun hne => absurd (by omega) hne⟩
  | succ n ih =>
    intro l hl hv charPos byteoff charoff hlo hhi
    match l with
    | [] =>
      rw [duk__scan_char2byte_go]
      rw [charlength_nil] at hhi
      exact ⟨by omega, by omega, by omega, fun hne => absurd (by omega) hne⟩
    | t :: p =>
      simp only [List.length_cons] at hl
      rcases valid_cons_inv t p hv with
        ⟨h7f, hvp⟩ |
        ⟨ht1, ht2, c1, p1, hp, hc1a, hc1b, hvp⟩ |
        ⟨ht1, ht2, c1, c2, p2, hp, hlo3, hhi3, hc2a, hc2b, hvp⟩ |
        ⟨ht1, ht2, c1, c2, c3, p3, hp, hlo4, hhi4, hc2a, hc2b, hc3a, hc3b, hvp⟩
      · -- ASCII
        have hcl : duk_unicode_wtf8_charlength (t :: p) = 1 + duk_unicode_wtf8_charlength p := by
          have hb := charlen_count_aux p.length p (Nat.le_refl _) hvp
          unfold duk_unicode_wtf8_charlength
          rw [adj_ascii t p h7f]
          simp only [List.length_cons]
          omega
        rw [duk__scan_char2byte_go]
        simp only [if_pos h7f, if_neg (by omega : ¬ 0xf0 ≤ t)]
        by_cases hstop : charPos < charoff + 1
        · rw [if_pos hstop]
          exact ⟨by omega, by omega, by omega, fun hne => absurd (by omega) hne⟩
        · rw [if_neg hstop]
          have hd0 : p.drop (1 - 1) = p := by simp
          rw [hd0]
          rw [hcl] at hhi
          obtain ⟨ihA, ihB, ihC, ihD⟩ :=
            ih p (by omega) hvp charPos (byteoff + 1) (charoff + 1) (by omega) (by omega)
          refine ⟨by omega, ihB, ihC, fun hne => ?_⟩
          obtain ⟨m, t4, d1, d2, d3, tail, hm, hdrop, hbs⟩ := ihD hne
          exact ⟨m + 1, t4, d1, d2, d3, tail, by omega,
            by rw [← hdrop]; rfl, hbs⟩
      · -- 2-byte
        subst hp
        simp only [List.length_cons] at hl
        have hcl : duk_unicode_wtf8_charlength (t :: c1 :: p1) =
            1 + duk_unicode_wtf8_charlength p1 := by
          have hb := charlen_count_aux p1.length p1 (Nat.le_refl _) hvp
          unfold duk_unicode_wtf8_charlength
          rw [adj_2b t c1 p1 (by omega) ht2]
          simp only [List.length_cons]
          omega
        rw [duk__scan_char2byte_go]
        simp only [if_neg (by omega : ¬ t ≤ 0x7f), if_pos ht2, if_neg (by omega : ¬ 0xf0 ≤ t)]
        by_cases hstop : charPos < charoff + 1
        · rw [if_pos hstop]
          exact ⟨by omega, by omega, by omega, fun hne => absurd (by omega) hne⟩
        · rw [if_neg hstop]
          have hd0 : (c1 :: p1).drop (2 - 1) = p1 := rfl
          rw [hd0]
          rw [hcl] at hhi
          obtain ⟨ihA, ihB, ihC, ihD⟩ :=
            ih p1 (by omega) hvp charPos (byteoff + 2) (charoff + 1) (by omega) (by omega)
          refine ⟨by omega, ihB, ihC, fun hne => ?_⟩
          obtain ⟨m, t4, d1, d2, d3, tail, hm, hdrop, hbs⟩ := ihD hne
          exact ⟨m + 2, t4, d1, d2, d3, tail, by omega,
            by rw [← hdrop]; rfl, hbs⟩
      · -- 3-byte
        subst hp
        simp only [List.length_cons] at hl
        have hcl : duk_unicode_wtf8_charlength (t :: c1 :: c2 :: p2) =
            1 + duk_unicode_wtf8_charlength p2 := by
          have hb := charlen_count_aux p2.length p2 (Nat.le_refl _) hvp
          unfold duk_unicode_wtf8_charlength
          rw [adj_3b t c1 c2 p2 ht1 ht2]
          simp only [List.length_cons]
          omega
        rw [duk__scan_char2byte_go]
        simp only [if_neg (by omega : ¬ t ≤ 0x7f), if_neg (by omega : ¬ t ≤ 0xdf),
          if_pos ht2, if_neg (by omega : ¬ 0xf0 ≤ t)]
        by_cases hstop : charPos < charoff + 1
        · rw [if_pos hstop]
          exact ⟨by omega, by omega, by omega, fun hne => absurd (by omega) hne⟩
        · rw [if_neg hstop]
          have hd0 : (c1 :: c2 :: p2).drop (3 - 1) = p2 := rfl
          rw [hd0]
          rw [hcl] at hhi
          obtain ⟨ihA, ihB, ihC, ihD⟩ :=
            ih p2 (by omega) hvp charPos (byteoff + 3) (charoff + 1) (by omega) (by omega)
          refine ⟨by omega, ihB, ihC, fun hne => ?_⟩
          obtain ⟨m, t4, d1, d2, d3, tail, hm, hdrop, hbs⟩ := ihD hne
          exact ⟨m + 3, t4, d1, d2, d3, tail, by omega,
            by rw [← hdrop]; rfl, hbs⟩
      · -- 4-byte
        subst hp
        simp only [List.length_cons] at hl
        have hcl : duk_unicode_wtf8_charlength (t :: c1 :: c2 :: c3 :: p3) =
            2 + duk_unicode_wtf8_charlength p3 := by
          have hb := charlen_count_aux p3.length p3 (Nat.le_refl _) hvp
          unfold duk_unicode_wtf8_charlength
          rw [adj_4b t c1 c2 c3 p3 ht1]
          simp only [List.length_cons]
          omega
        rw [duk__scan_char2byte_go]
        simp only [if_neg (by omega : ¬ t ≤ 0x7f), if_neg (by omega : ¬ t ≤ 0xdf),
          if_neg (by omega : ¬ t ≤ 0xef), if_pos (by omega : 0xf0 ≤ t)]
        by_cases hstop : charPos < charoff + 2
        · rw [if_pos hstop]
          refine ⟨by omega, by omega, by omega, fun hne => ?_⟩
          exact ⟨0, t, c1, c2, c3, p3, by omega, rfl, ht1, ht2, hlo4, hhi4,
            hc2a, hc2b, hc3a, hc3b⟩
        · rw [if_neg hstop]
          have hd0 : (c1 :: c2 :: c3 :: p3).drop (4 - 1) = p3 := rfl
          rw [hd0]
          rw [hcl] at hhi
          obtain ⟨ihA, ihB, ihC, ihD⟩ :=
            ih p3 (by omega) hvp charPos (byteoff + 4) (charoff + 2) (by omega) (by omega)
          refine ⟨by omega, ihB, ihC, fun hne => ?_⟩
          obtain ⟨m, t4, d1, d2, d3, tail, hm, hdrop, hbs⟩ := ihD hne
          exact ⟨m + 4, t4, d1, d2, d3, tail, by omega,
            by rw [← hdrop]; rfl, hbs⟩

/-- The low-surrogate bytes manufactured by the substring extractor,
as the spec-side encoding of `0xDC00 + (x mod 0x400)`. -/
theorem low_sur_bytes_eq (x : Nat) :
    [0xed, 0x80 + (((0xdc00 + (x &&& 0x3ff)) >>> 6) &&& 0x3f),
      0x80 + ((0xdc00 + (x &&& 0x3ff)) &&& 0x3f)] =
    wtf8Enc (0xdc00 + x % 0x400) := by
  simp only [nat_and_1023]
  exact sur3_eq_wtf8Enc _ (by omega) (by omega)

/-- The high-surrogate bytes manufactured by the substring extractor,
as the spec-side encoding of `0xD800 + x / 0x400`. -/
theorem hi_sur_bytes_eq (x : Nat) (hx : x ≤ 0xfffff) :
    [0xed, 0x80 + (((0xd800 + (x >>> 10)) >>> 6) &&& 0x3f),
      0x80 + ((0xd800 + (x >>> 10)) &&& 0x3f)] =
    wtf8Enc (0xd800 + x / 0x400) := by
  simp only [nat_shr_10]
  exact sur3_eq_wtf8Enc _ (by omega) (by omega)

/-- C5: on a valid WTF-8 string, `substring(h, start, end)` (with
`start ≤ end ≤ charlength`, `start ≠ end`) equals a manufactured
low-surrogate prefix `0xDC00 + ((cp - 0x10000) mod 0x400)` in 3-byte
WTF-8 form when the start offset splits a supplementary codepoint (the
copy then resuming at `start_byte + 4`), followed by the byte range
`[copy_start, end_byte)`, followed by a manufactured high-surrogate
suffix `0xD800 + ((cp - 0x10000) / 0x400)` in 3-byte form when the end
offset splits a supplementary codepoint. -/
theorem claim_C5_substring (data : List Nat) (s e : Nat)
    (hv : duk_unicode_is_valid_wtf8 data = true)
    (hse : s ≤ e) (hec : e ≤ duk_unicode_wtf8_charlength data) (hne : s ≠ e) :
    duk_push_wtf8_substring_hstring data s e =
      (if (duk_strcache_scan_char2byte_wtf8 data s).2 ≠ s then
        wtf8Enc (0xdc00 + ((duk_unicode_wtf8_decode_known
          (data.drop (duk_strcache_scan_char2byte_wtf8 data s).1) - 0x10000) % 0x400))
      else []) ++
      ((data.drop (if (duk_strcache_scan_char2byte_wtf8 data s).2 ≠ s then
          (duk_strcache_scan_char2byte_wtf8 data s).1 + 4
        else (duk_strcache_scan_char2byte_wtf8 data s).1)).take
        ((duk_strcache_scan_char2byte_wtf8 data e).1 -
          (if (duk_strcache_scan_char2byte_wtf8 data s).2 ≠ s then
            (duk_strcache_scan_char2byte_wtf8 data s).1 + 4
          else (duk_strcache_scan_char2byte_wtf8 data s).1))) ++
      (if (duk_strcache_scan_char2byte_wtf8 data e).2 ≠ e then
        wtf8Enc (0xd800 + ((duk_unicode_wtf8_decode_known
          (data.drop (duk_strcache_scan_char2byte_wtf8 data e).1) - 0x10000) / 0x400))
      else []) := by
  by_cases hfast : duk_unicode_wtf8_charlength data = data.length
  · -- ASCII fast path: neither offset can split a codepoint
    have hasc := valid_full_ascii data.length data (Nat.le_refl _) hv hfast
    have hs0 : duk_strcache_scan_char2byte_wtf8 data s = (s, s) := by
      unfold duk_strcache_scan_char2byte_wtf8
      rw [scan_go_ascii data hasc s 0 0]
      have hmin : min (s - 0) data.length = s := by omega
      rw [hmin]
      simp
    have he0 : duk_strcache_scan_char2byte_wtf8 data e = (e, e) := by
      unfold duk_strcache_scan_char2byte_wtf8
      rw [scan_go_ascii data hasc e 0 0]
      have hmin : min (e - 0) data.length = e := by omega
      rw [hmin]
      simp
    rw [hs0, he0]
    unfold duk_push_wtf8_substring_hstring
    rw [hs0, he0, if_pos hfast]
    simp
  · have hsplit := scan_go_split data.length data (Nat.le_refl _) hv e 0 0
      (Nat.zero_le _) (by omega)
    unfold duk_push_wtf8_substring_hstring duk_strcache_scan_char2byte_wtf8
    rw [if_neg hfast, if_neg hne]
    unfold duk_strcache_scan_char2byte_wtf8 at hsplit
    dsimp only
    -- bound on the codepoint at a splitting end offset
    have hbnd : (duk__scan_char2byte_go data e 0 0).2 ≠ e →
        0x10000 ≤ duk_unicode_wtf8_decode_known
          (data.drop (duk__scan_char2byte_go data e 0 0).1) ∧
        duk_unicode_wtf8_decode_known
          (data.drop (duk__scan_char2byte_go data e 0 0).1) ≤ 0x10ffff := by
      intro hcond
      obtain ⟨-, -, -, hD⟩ := hsplit
      obtain ⟨m, t4, d1, d2, d3, tail, hm, hdrop, hb1, hb2, hb3, hb4, hb5, hb6, hb7, hb8⟩ :=
        hD hcond
      have hm0 : (duk__scan_char2byte_go data e 0 0).1 = m := by omega
      have hcp : duk_unicode_wtf8_decode_known
          (data.drop (duk__scan_char2byte_go data e 0 0).1) =
          (t4 % 0x8) * 0x40000 + (d1 % 0x40) * 0x1000 + (d2 % 0x40) * 0x40 + d3 % 0x40 := by
        rw [hm0, hdrop]
        exact dk_4b t4 d1 d2 d3 tail hb1
      rw [hcp]
      constructor
      · by_cases he4 : t4 = 0xf0
        · subst he4
          rw [if_pos rfl] at hb3
          rw [if_neg (by norm_num)] at hb4
          omega
        · rw [if_neg he4] at hb3
          omega
      · by_cases he4 : t4 = 0xf4
        · subst he4
          rw [if_pos rfl] at hb4
          rw [if_neg (by norm_num)] at hb3
          omega
        · rw [if_neg he4] at hb4
          omega
    by_cases hcondS : (duk__scan_char2byte_go data s 0 0).2 ≠ s <;>
      by_cases hcondE : (duk__scan_char2byte_go data e 0 0).2 ≠ e
    · simp only [if_pos hcondS, if_pos hcondE]
      rw [low_sur_bytes_eq, hi_sur_bytes_eq _ (by have := hbnd hcondE; omega)]
    · simp only [if_pos hcondS, if_neg hcondE]
      rw [low_sur_bytes_eq]
    · simp only [if_neg hcondS, if_pos hcondE]
      rw [hi_sur_bytes_eq _ (by have := hbnd hcondE; omega)]
    · simp only [if_neg hcondS, if_neg hcondE]

/-- Witness for C5: the two halves of a 4-byte U+1F600. -/
theorem claim_C5_substring_witness :
    duk_push_wtf8_substring_hstring [0xf0, 0x9f, 0x98, 0x80] 0 1 = [0xed, 0xa0, 0xbd] ∧
    duk_push_wtf8_substring_hstring [0xf0, 0x9f, 0x98, 0x80] 1 2 = [0xed, 0xb8, 0x80] := by
  constructor
  · rw [claim_C5_substring [0xf0, 0x9f, 0x98, 0x80] 0 1
      (by simp [duk_unicode_is_valid_wtf8])
      (by omega)
      (by norm_num [duk_unicode_wtf8_charlength, duk__wtf8_charlength_adj])
      (by omega)]
    simp [duk_strcache_scan_char2byte_wtf8, duk__scan_char2byte_go,
      duk_unicode_wtf8_decode_known, wtf8Enc, nat_and_7, nat_and_15, nat_and_31,
      nat_and_63, nat_and_1023, nat_shl_6, nat_shl_10, nat_shl_12,
      nat_shr_6, nat_shr_10, nat_shr_12, nat_shr_18]
  · rw [claim_C5_substring [0xf0, 0x9f, 0x98, 0x80] 1 2
      (by simp [duk_unicode_is_valid_wtf8])
      (by omega)
      (by norm_num [duk_unicode_wtf8_charlength, duk__wtf8_charlength_adj])
      (by omega)]
    simp [duk_strcache_scan_char2byte_wtf8, duk__scan_char2byte_go,
      duk_unicode_wtf8_decode_known, wtf8Enc, nat_and_7, nat_and_15, nat_and_31,
      nat_and_63, nat_and_1023, nat_shl_6, nat_shl_10, nat_shl_12,
      nat_shr_6, nat_shr_10, nat_shr_12, nat_shr_18]

/-! ## Helper lemmas: forward search -/

/-- An empty character range always extracts the empty string. -/
theorem substring_self_empty (data : List Nat) (k : Nat) :
    duk_push_wtf8_substring_hstring data k k = [] := by
  unfold duk_push_wtf8_substring_hstring
  by_cases hfast : duk_unicode_wtf8_charlength data = data.length
  · rw [if_pos hfast]
    simp
  · rw [if_neg hfast, if_pos rfl]

/-- Loop characterization for the forward-search reference scan: a
non-negative result is the first matching offset at or after the start,
and `-1` means no offset in range matches. -/
theorem search_loop_aux :
    ∀ d : Nat, ∀ input needle : List Nat, ∀ ilen mlen charoff : Nat,
      ilen + 1 ≤ charoff + d →
      (∀ i : Nat, duk__wtf8_search_fwd_loop input needle ilen mlen charoff = Int.ofNat i →
        charoff ≤ i ∧ i + mlen ≤ ilen ∧
        duk_push_wtf8_substring_hstring input i (i + mlen) = needle ∧
        ∀ j, charoff ≤ j → j < i →
          ¬(j + mlen ≤ ilen ∧ duk_push_wtf8_substring_hstring input j (j + mlen) = needle)) ∧
      (duk__wtf8_search_fwd_loop input needle ilen mlen charoff = -1 →
        ∀ i, charoff ≤ i → i + mlen ≤ ilen →
          duk_push_wtf8_substring_hstring input i (i + mlen) ≠ needle) := by
  intro d
  induction d with
  | zero =>
    intro input needle ilen mlen charoff hd
    rw [duk__wtf8_search_fwd_loop]
    rw [if_neg (by omega)]
    constructor
    · intro i hi
      simp at hi
    · intro _ i hci hbound
      exfalso
      omega
  | succ d ihd =>
    intro input needle ilen mlen charoff hd
    by_cases hin : charoff ≤ ilen
    · rw [duk__wtf8_search_fwd_loop, if_pos hin]
      by_cases hit : charoff + mlen ≤ ilen ∧
          duk_push_wtf8_substring_hstring input charoff (charoff + mlen) = needle
      · rw [if_pos hit]
        constructor
        · intro i hi
          have hie : charoff = i := by
            simpa using hi
          subst hie
          exact ⟨Nat.le_refl _, hit.1, hit.2, fun j hj1 hj2 => absurd hj2 (by omega)⟩
        · intro hneg
          simp at hneg
      · rw [if_neg hit]
        obtain ⟨ih1, ih2⟩ := ihd input needle ilen mlen (charoff + 1) (by omega)
        constructor
        · intro i hi
          obtain ⟨ha, hb, hc, hmin⟩ := ih1 i hi
          refine ⟨by omega, hb, hc, ?_⟩
          intro j hj1 hj2
          by_cases hje : j = charoff
          · subst hje
            exact hit
          · exact hmin j (by omega) hj2
        · intro hneg i hci hbound
          by_cases hie : i = charoff
          · subst hie
            intro hsub
            exact hit ⟨hbound, hsub⟩
          · exact ih2 hneg i (by omega) hbound
    · rw [duk__wtf8_search_fwd_loop, if_neg hin]
      constructor
      · intro i hi
        simp at hi
      · intro _ i hci hbound
        exfalso
        omega

/-- C8: forward search with an empty needle returns the start offset;
with a non-empty needle it returns the smallest character offset
`i ≥ k` whose character-range substring of the needle's character
length equals the needle byte-for-byte, and `-1` when no such offset
exists. -/
theorem claim_C8_search_forwards (input needle : List Nat) (k : Nat)
    (hk : k ≤ duk_unicode_wtf8_charlength input) :
    (needle = [] → duk_unicode_wtf8_search_forwards input needle k = Int.ofNat k) ∧
    (∀ i : Nat, duk_unicode_wtf8_search_forwards input needle k = Int.ofNat i →
      k ≤ i ∧ i + duk_unicode_wtf8_charlength needle ≤ duk_unicode_wtf8_charlength input ∧
      duk_push_wtf8_substring_hstring input i (i + duk_unicode_wtf8_charlength needle) =
        needle ∧
      ∀ j, k ≤ j → j < i →
        duk_push_wtf8_substring_hstring input j (j + duk_unicode_wtf8_charlength needle) ≠
          needle) ∧
    (duk_unicode_wtf8_search_forwards input needle k = -1 →
      ∀ i, k ≤ i → i + duk_unicode_wtf8_charlength needle ≤ duk_unicode_wtf8_charlength input →
        duk_push_wtf8_substring_hstring input i (i + duk_unicode_wtf8_charlength needle) ≠
          needle) := by
  unfold duk_unicode_wtf8_search_forwards duk__unicode_wtf8_search_forwards_reference
  obtain ⟨hfound, hnone⟩ := search_loop_aux (duk_unicode_wtf8_charlength input + 1)
    input needle (duk_unicode_wtf8_charlength input)
    (duk_unicode_wtf8_charlength needle) k (by omega)
  refine ⟨?_, ?_, ?_⟩
  · intro hempty
    subst hempty
    rw [duk__wtf8_search_fwd_loop, if_pos hk]
    rw [if_pos ⟨by rw [charlength_nil]; omega, by
      rw [charlength_nil, Nat.add_zero]
      exact substring_self_empty input k⟩]
  · intro i hi
    obtain ⟨ha, hb, hc, hmin⟩ := hfound i hi
    refine ⟨ha, hb, hc, fun j hj1 hj2 hsub => ?_⟩
    exact hmin j hj1 hj2 ⟨by omega, hsub⟩
  · intro hneg i hci hbound
    exact hnone hneg i hci hbound

/-- Witness for C8: an empty needle matches at the start offset, and
searching for `B` in `AB` from offset 0 yields the characterized first
match at offset 1. -/
theorem claim_C8_search_forwards_witness :
    duk_unicode_wtf8_search_forwards [0x41, 0x42] [] 1 = Int.ofNat 1 ∧
    (0 ≤ 1 ∧
      1 + duk_unicode_wtf8_charlength [0x42] ≤ duk_unicode_wtf8_charlength [0x41, 0x42] ∧
      duk_push_wtf8_substring_hstring [0x41, 0x42] 1
        (1 + duk_unicode_wtf8_charlength [0x42]) = [0x42] ∧
      ∀ j, 0 ≤ j → j < 1 →
        duk_push_wtf8_substring_hstring [0x41, 0x42] j
          (j + duk_unicode_wtf8_charlength [0x42]) ≠ [0x42]) := by
  constructor
  · exact (claim_C8_search_forwards [0x41, 0x42] [] 1
      (by norm_num [duk_unicode_wtf8_charlength, duk__wtf8_charlength_adj])).1 rfl
  · exact (claim_C8_search_forwards [0x41, 0x42] [0x42] 0
      (by norm_num [duk_unicode_wtf8_charlength, duk__wtf8_charlength_adj])).2.1 1
      (by simp [duk_unicode_wtf8_search_forwards, duk__unicode_wtf8_search_forwards_reference,
        duk__wtf8_search_fwd_loop, duk_push_wtf8_substring_hstring, duk_unicode_wtf8_charlength,
        duk__wtf8_charlength_adj, duk_strcache_scan_char2byte_wtf8, duk__scan_char2byte_go,
        duk_unicode_wtf8_decode_known])

end Duktape
